import Mathlib

/-!
Verification of the `lobby` crate (src/src/lib.rs), a TCP lobby server.

The development shallowly embeds the code:

* the per-connection Reader Task (`Lobby::new`, lines 98-133): the socket's
  read side is a script `List StreamItem` of results returned by successive
  reads (`BufReader::fill_buf` / `read_until`); `readerTask` computes the
  task's observable outcome and `readerActions` its ordered action trace;
* `Lobby::scan` (lines 193-222) over a snapshot `ScanState` of the shared
  state, producing an ordered trace of primitive actions (`scanTrace`)
  recording lock operations, channel receives, registry removals and
  callback invocations;
* `Lobby::message` and its wrappers (lines 154-186);
* the id allocator of the accept loop (lines 83-91 and 110-128);
* a small-step interleaving of one Reader Task with repeated `scan` calls
  (`runSched`), used for the temporal claims.

Machine integers: ids and byte values are `Nat` (no arithmetic in the source
overflows within any reachable range; bytes are values 0..255 produced by
reads). Rust `io::Error` values are opaque and are modelled as `Nat` codes.
-/

namespace Lobby

/-- Result of one read from the underlying socket: a chunk of bytes
(`fill_buf` returning `Ok(data)`; empty models `Ok` with zero bytes, i.e.
stream end) or an I/O error.  The end of the list is stream end. -/
inductive StreamItem where
  | chunk (b : List Nat)
  | ioErr (e : Nat)
deriving DecidableEq, Repr

/-- Payload sent on a connection's data channel by the Reader Task:
`ds.send(Ok(data.to_vec()))` or `ds.send(Err(e))` (lib.rs lines 119-120). -/
inductive DElem where
  | data (b : List Nat)
  | ioErr (e : Nat)
deriving DecidableEq, Repr

/-- Splits a byte list at the first 0 byte: `some (pre, post)` with
`b = pre ++ 0 :: post` and no 0 in `pre`, or `none` when `b` has no 0. -/
def splitAtDelim : List Nat → Option (List Nat × List Nat)
  | [] => none
  | x :: xs =>
    if x = 0 then some ([], xs)
    else (splitAtDelim xs).map (fun pq => (x :: pq.1, pq.2))

/-- Result of `reader.read_until(0, &mut name_buf)` (lib.rs line 103):
on `ok`, `buf` is the accumulated bytes (including the delimiter when one
was seen) and `rest` the unread remainder of the stream; `ioError` is the
`Err(_)` branch. -/
inductive RUResult where
  | ok (buf : List Nat) (rest : List StreamItem)
  | ioError
deriving DecidableEq, Repr

/-- Embeds `BufRead::read_until(0)`: keep reading chunks until a 0 byte, an
I/O error, or stream end (a read of zero bytes).  Note `read_until` returns
`Ok` when the stream ends before any delimiter - this is the source of the
behaviour checked by the EOF-before-delimiter claims. -/
def readUntil0 : List StreamItem → List Nat → RUResult
  | [], acc => RUResult.ok acc []
  | StreamItem.ioErr _ :: _, _ => RUResult.ioError
  | StreamItem.chunk b :: rest, acc =>
    match splitAtDelim b with
    | some pq =>
      RUResult.ok (acc ++ pq.1 ++ [0])
        (if pq.2.isEmpty then rest else StreamItem.chunk pq.2 :: rest)
    | none => if b.isEmpty then RUResult.ok acc rest else readUntil0 rest (acc ++ b)

/-- Continuation byte of a multi-byte UTF-8 sequence. -/
def isCont (c : Nat) : Bool := 128 ≤ c && c ≤ 191

/-- Validity of a byte list as UTF-8, as checked by Rust's
`String::from_utf8` (lib.rs line 106): ASCII, and 2-, 3- and 4-byte
sequences with the standard lead/continuation ranges, excluding overlong
forms, surrogates (lead 0xED limits the next byte to 0x9F) and code points
above U+10FFFF (lead at most 0xF4, with 0xF4 limiting the next byte
to 0x8F). -/
def validUtf8 : List Nat → Bool
  | [] => true
  | b :: rest =>
    if b < 128 then validUtf8 rest
    else if b < 194 then false
    else if b < 224 then
      match rest with
      | c :: rest2 => isCont c && validUtf8 rest2
      | [] => false
    else if b < 240 then
      match rest with
      | c1 :: c2 :: rest2 =>
        (if b = 224 then 160 ≤ c1 && c1 ≤ 191
         else if b = 237 then 128 ≤ c1 && c1 ≤ 159
         else isCont c1) && isCont c2 && validUtf8 rest2
      | _ => false
    else if b < 245 then
      match rest with
      | c1 :: c2 :: c3 :: rest2 =>
        (if b = 240 then 144 ≤ c1 && c1 ≤ 191
         else if b = 244 then 128 ≤ c1 && c1 ≤ 143
         else isCont c1) && isCont c2 && isCont c3 && validUtf8 rest2
      | _ => false
    else false

/-- Embeds the steady-state loop of the Reader Task (lib.rs lines 116-132):
each `fill_buf` yields the next stream item; a non-empty chunk is sent as
`Ok(data)` and consumed, an error is sent as `Err(e)` and the loop retries,
and a zero-length read (or exhausted stream) ends the loop. -/
def steadyLoop : List StreamItem → List DElem
  | [] => []
  | StreamItem.chunk [] :: _ => []
  | StreamItem.chunk b :: rest => DElem.data b :: steadyLoop rest
  | StreamItem.ioErr e :: rest => DElem.ioErr e :: steadyLoop rest

/-- Observable outcome of one Reader Task run on a finite stream:
the name inserted into the Name Registry (if any), whether the
connection-established event was sent on `new_s`, the events sent on the
connection's data channel, whether the id was pushed back onto the free
list, and whether the thread panicked (the `String::from_utf8(..).unwrap()`
on line 106). -/
structure ReaderOutcome where
  nameRegistered : Option (List Nat)
  establishedSent : Bool
  events : List DElem
  released : Bool
  panicked : Bool
deriving DecidableEq, Repr

/-- Embeds the whole Reader Task body (lib.rs lines 98-133) on a finite
read script.  `Ok` from `read_until` pops the last byte of the buffer
(line 105) whether or not it is the delimiter, then decodes as UTF-8:
on invalid bytes the `unwrap` panics, so nothing is registered, no event
is sent, and the id is never released.  The `Err(_)` branch drops the
channel and releases the id. -/
def readerTask (s : List StreamItem) : ReaderOutcome :=
  match readUntil0 s [] with
  | RUResult.ioError =>
    { nameRegistered := none, establishedSent := false, events := [],
      released := true, panicked := false }
  | RUResult.ok buf rest =>
    if validUtf8 buf.dropLast then
      { nameRegistered := some buf.dropLast, establishedSent := true,
        events := steadyLoop rest, released := true, panicked := false }
    else
      { nameRegistered := none, establishedSent := false, events := [],
        released := false, panicked := true }

/-- The handshake fails in the sense of the specification: `read_until`
returns `Err`, or the buffered bytes (delimiter popped) are not valid
UTF-8. -/
def handshakeFailed (s : List StreamItem) : Bool :=
  match readUntil0 s [] with
  | RUResult.ioError => true
  | RUResult.ok buf _ => !validUtf8 buf.dropLast

/-- The `read_until` call ended in the `Err(_)` branch. -/
def readUntilErr (s : List StreamItem) : Bool :=
  match readUntil0 s [] with
  | RUResult.ioError => true
  | RUResult.ok _ _ => false

/-- The handshake completes in the sense of the specification: a 0x00
delimiter was actually observed and the bytes before it are valid UTF-8. -/
def handshakeOk (s : List StreamItem) : Bool :=
  match readUntil0 s [] with
  | RUResult.ioError => false
  | RUResult.ok buf _ =>
    (match buf.getLast? with
     | some 0 => true
     | _ => false) && validUtf8 buf.dropLast

/-- The name the Reader Task registers on a successful handshake:
the `read_until` buffer with its last byte popped (lib.rs line 105). -/
def handshakeName (s : List StreamItem) : List Nat :=
  match readUntil0 s [] with
  | RUResult.ioError => []
  | RUResult.ok buf _ => buf.dropLast

/-- All bytes the peer's stream carries, chunk contents in order. -/
def flattenChunks : List StreamItem → List Nat
  | [] => []
  | StreamItem.chunk b :: rest => b ++ flattenChunks rest
  | StreamItem.ioErr _ :: rest => flattenChunks rest

/-- Primitive side effects of a Reader Task, in program order:
insert into the Name Registry (line 106), send on the shared established
channel (line 107), send on the connection's data channel (lines 119-120),
drop the data channel's sender, release the id (lines 110-111 / 127-128),
or panic out of the thread (line 106's `unwrap`, which also drops the
sender by unwinding). -/
inductive RAction where
  | regName (n : List Nat)
  | sendEst
  | sendData (e : DElem)
  | dropDs
  | release
  | panicAct
deriving DecidableEq, Repr

/-- The steady-state segment of the Reader Task's action trace. -/
def steadyTail (s : List StreamItem) : List RAction :=
  match readUntil0 s [] with
  | RUResult.ioError => []
  | RUResult.ok _ rest =>
    (steadyLoop rest).map RAction.sendData ++ [RAction.dropDs, RAction.release]

/-- Ordered action trace of one Reader Task run (lib.rs lines 98-133). -/
def readerActions (s : List StreamItem) : List RAction :=
  match readUntil0 s [] with
  | RUResult.ioError => [RAction.dropDs, RAction.release]
  | RUResult.ok buf rest =>
    if validUtf8 buf.dropLast then
      RAction.regName buf.dropLast :: RAction.sendEst ::
        ((steadyLoop rest).map RAction.sendData ++ [RAction.dropDs, RAction.release])
    else [RAction.panicAct]

/-! The id allocator of the accept loop (lib.rs lines 83-91): a counter
`id` starting at 0 and a `VecDeque` free list; `pop_front` when non-empty,
else pre-increment and return the counter; reader tasks `push_back`
released ids (lines 111 and 128). -/

/-- Allocator state: the accept loop's counter and the FIFO free list. -/
structure IdAlloc where
  counter : Nat
  freeIds : List Nat
deriving DecidableEq, Repr

/-- Embeds lines 88-91: `free_ids.pop_front()` if possible, else
`{ id += 1; id }`. -/
def allocate : IdAlloc → Nat × IdAlloc
  | ⟨c, []⟩ => (c + 1, ⟨c + 1, []⟩)
  | ⟨c, f :: rest⟩ => (f, ⟨c, rest⟩)

/-- Embeds `free_ids.lock().unwrap().push_back(my_id)` (lines 111, 128). -/
def release (a : IdAlloc) (i : Nat) : IdAlloc :=
  ⟨a.counter, a.freeIds ++ [i]⟩

/-- An allocator operation as performed by the running system: an accept
allocates, a terminating Reader Task frees the id it holds. -/
inductive AllocOp where
  | alloc
  | free (i : Nat)
deriving DecidableEq, Repr

/-- Runs a sequence of allocator operations, returning the final state and
the ids handed out by the `alloc` operations, in order. -/
def runAlloc : List AllocOp → IdAlloc → IdAlloc × List Nat
  | [], a => (a, [])
  | AllocOp.alloc :: ops, a =>
    let r := runAlloc ops (allocate a).2
    (r.1, (allocate a).1 :: r.2)
  | AllocOp.free i :: ops, a => runAlloc ops (release a i)

/-- Well-formedness of an operation sequence: every `free` releases an id
that some earlier `alloc` handed out (reader tasks only release the id they
were given).  `issued` accumulates the ids allocated so far. -/
def wfOps : List AllocOp → List Nat → IdAlloc → Bool
  | [], _, _ => true
  | AllocOp.alloc :: ops, issued, a =>
    wfOps ops (issued ++ [(allocate a).1]) (allocate a).2
  | AllocOp.free i :: ops, issued, a =>
    issued.contains i && wfOps ops issued (release a i)

/-- Freshness along a run: whenever `allocate` takes the empty-free-list
branch, the id it returns was never previously issued. -/
def freshOk : List AllocOp → List Nat → IdAlloc → Bool
  | [], _, _ => true
  | AllocOp.alloc :: ops, issued, a =>
    (if a.freeIds.isEmpty then !issued.contains (allocate a).1 else true)
      && freshOk ops (issued ++ [(allocate a).1]) (allocate a).2
  | AllocOp.free i :: ops, issued, a => freshOk ops issued (release a i)

/-! Embedding of `Lobby::scan` (lib.rs lines 193-222) on a snapshot of the
shared state. -/

/-- Argument of the scan callback, `ScanResult` in the source
(lib.rs lines 231-240). -/
inductive SResult where
  | connected
  | data (b : List Nat)
  | ioErr (e : Nat)
  | disconnected
deriving DecidableEq, Repr

/-- One Connection Registry entry, from scan's and message's point of view:
the receiving half of the data channel (its buffered events and whether the
sending half was dropped), the write handle's behaviour (`writeErr` is the
error `write_all` returns, if it fails), and the bytes successfully written
so far. -/
structure Conn where
  queue : List DElem
  closed : Bool
  writeErr : Option Nat
  written : List (List Nat)
deriving DecidableEq, Repr

/-- Snapshot of the shared state that one `scan` call reads: the pending
ids on the shared established channel `new_r` (arrival order), whether that
channel's sending half is gone (the accept loop died), and the Connection
Registry in iteration order (`VecMap` keys are unique). -/
structure ScanState where
  newQ : List Nat
  newClosed : Bool
  conns : List (Nat × Conn)
deriving DecidableEq, Repr

/-- Primitive actions a `scan` call performs, in order: invoke the
callback, one non-blocking `try_recv` on a connection's channel, acquire or
drop the `connections` mutex, and remove an entry from the registry. -/
inductive SAction where
  | invoke (i : Nat) (r : SResult)
  | recvConn (i : Nat)
  | lockConns
  | unlockConns
  | removeConn (i : Nat)
deriving DecidableEq, Repr

/-- Result of `Receiver::try_recv` on a data channel. -/
inductive RecvRes where
  | item (e : DElem)
  | empty
  | closedR
deriving DecidableEq, Repr

/-- Embeds `dr.try_recv()` (lib.rs line 208): the front buffered event if
any, else `Empty` while the sender is alive, else `Disconnected`. -/
def tryRecvC (c : Conn) : RecvRes × Conn :=
  match c.queue with
  | e :: rest => (RecvRes.item e, { c with queue := rest })
  | [] => if c.closed then (RecvRes.closedR, c) else (RecvRes.empty, c)

/-- Embeds scan's second phase (lib.rs lines 207-214): one `try_recv` per
registry entry in iteration order, collecting the `results` vector and the
registry with the received events popped. -/
def sweep : List (Nat × Conn) → List (Nat × SResult) × List (Nat × Conn)
  | [] => ([], [])
  | (i, c) :: rest =>
    let rc := tryRecvC c
    let rs := sweep rest
    match rc.1 with
    | RecvRes.item (DElem.data b) => ((i, SResult.data b) :: rs.1, (i, rc.2) :: rs.2)
    | RecvRes.item (DElem.ioErr e) => ((i, SResult.ioErr e) :: rs.1, (i, rc.2) :: rs.2)
    | RecvRes.empty => (rs.1, (i, rc.2) :: rs.2)
    | RecvRes.closedR => ((i, SResult.disconnected) :: rs.1, (i, rc.2) :: rs.2)

/-- Embeds scan's delivery loop (lib.rs lines 216-221): for each collected
result in order, a `Disconnected` first locks the registry and removes the
id (line 218), then the callback is invoked; every other result is
delivered directly. -/
def deliver : List (Nat × SResult) → List SAction
  | [] => []
  | (i, SResult.disconnected) :: rest =>
    SAction.lockConns :: SAction.removeConn i :: SAction.unlockConns ::
      SAction.invoke i SResult.disconnected :: deliver rest
  | (i, r) :: rest => SAction.invoke i r :: deliver rest

/-- Embeds scan's first-phase loop (lib.rs lines 194-203): repeatedly
`try_recv` on the shared established channel; `Ok(id)` invokes
`callback(id, Connected)` and loops, `Empty` breaks out, and
`Disconnected` - the queue exhausted with the sending half gone -
panics.  Returns the invocations performed and whether the loop ended in
the `panic!` arm. -/
def drainNew : List Nat → Bool → List SAction × Bool
  | [], closed => ([], closed)
  | i :: rest, closed =>
    let r := drainNew rest closed
    (SAction.invoke i SResult.connected :: r.1, r.2)

/-- Scan's first phase: drain every pending established event, invoking
`callback(id, Connected)` for each. -/
def phase1 (st : ScanState) : List SAction :=
  (drainNew st.newQ st.newClosed).1

/-- Whether the scan call panics in its first phase (lib.rs lines
198-200). -/
def scanPanicked (st : ScanState) : Bool := (drainNew st.newQ st.newClosed).2

/-- The results vector scan collects in its second phase. -/
def scanResults (st : ScanState) : List (Nat × SResult) := (sweep st.conns).1

/-- Full ordered action trace of one `scan` call.  After phase 1 the
`with_capacity` call on line 205 locks and drops the registry lock, then
the sweep holds the lock for the whole iteration (line 207), and delivery
runs with no lock held except around each removal.  When the shared channel
is closed the call panics right after draining, so only the phase-1
invocations happened. -/
def scanTrace (st : ScanState) : List SAction :=
  if scanPanicked st then phase1 st
  else
    phase1 st ++ (SAction.lockConns :: SAction.unlockConns :: SAction.lockConns ::
      (st.conns.map (fun p => SAction.recvConn p.1) ++
        (SAction.unlockConns :: deliver (sweep st.conns).1)))

/-- Shared state after the scan call: established events drained, received
events popped from the channels, and every entry whose channel was found
closed removed (first matching key, as `VecMap::remove`). -/
def scanFinal (st : ScanState) : ScanState :=
  if scanPanicked st then { st with newQ := [] }
  else
    ⟨[], false,
      (sweep st.conns).1.foldl
        (fun cs pr =>
          match pr.2 with
          | SResult.disconnected => cs.eraseP (fun q => q.1 == pr.1)
          | _ => cs)
        (sweep st.conns).2⟩

/-! Trace observation helpers used to state the scan claims. -/

/-- Ids delivered as `Connected`, in order. -/
def connectedIdsOf : List SAction → List Nat
  | [] => []
  | SAction.invoke i SResult.connected :: t => i :: connectedIdsOf t
  | _ :: t => connectedIdsOf t

/-- Ids on which a `try_recv` was attempted, in order. -/
def recvIdsOf : List SAction → List Nat
  | [] => []
  | SAction.recvConn i :: t => i :: recvIdsOf t
  | _ :: t => recvIdsOf t

/-- The `(id, result)` pairs delivered as `Data`, `IoError` or
`Disconnected`, in order. -/
def eventPairsOf : List SAction → List (Nat × SResult)
  | [] => []
  | SAction.invoke _ SResult.connected :: t => eventPairsOf t
  | SAction.invoke i r :: t => (i, r) :: eventPairsOf t
  | _ :: t => eventPairsOf t

/-- No `Connected` invocation anywhere in the trace. -/
def noConnInvoke : List SAction → Bool
  | [] => true
  | SAction.invoke _ SResult.connected :: _ => false
  | _ :: t => noConnInvoke t

/-- No channel receive anywhere in the trace. -/
def noRecvActs : List SAction → Bool
  | [] => true
  | SAction.recvConn _ :: _ => false
  | _ :: t => noRecvActs t

/-- No `Data`/`IoError`/`Disconnected` invocation anywhere in the trace. -/
def noNonConnInvoke : List SAction → Bool
  | [] => true
  | SAction.invoke _ SResult.connected :: t => noNonConnInvoke t
  | SAction.invoke _ _ :: _ => false
  | _ :: t => noNonConnInvoke t

/-- Every `Connected` invocation precedes every channel receive: once a
receive happens, no `Connected` is invoked afterwards. -/
def connBeforeRecv : List SAction → Bool
  | [] => true
  | SAction.recvConn _ :: t => noConnInvoke t
  | _ :: t => connBeforeRecv t

/-- Every channel receive precedes every `Data`/`IoError`/`Disconnected`
invocation: once such a callback fires, no receive happens afterwards. -/
def recvsDone : List SAction → Bool
  | [] => true
  | SAction.invoke _ SResult.connected :: t => recvsDone t
  | SAction.invoke _ _ :: t => noRecvActs t
  | _ :: t => recvsDone t

/-- Net number of registry-lock acquisitions performed by a trace. -/
def lockDelta : List SAction → Int
  | [] => 0
  | SAction.lockConns :: t => lockDelta t + 1
  | SAction.unlockConns :: t => lockDelta t - 1
  | _ :: t => lockDelta t

/-- Tracks the registry-lock depth along the trace, starting from `d`, and
checks that every callback invocation happens at depth 0 (so a callback can
itself lock the registry, e.g. by calling `message`, without deadlock). -/
def lockFreeInvokes : Int → List SAction → Bool
  | _, [] => true
  | d, SAction.lockConns :: t => lockFreeInvokes (d + 1) t
  | d, SAction.unlockConns :: t => lockFreeInvokes (d - 1) t
  | d, SAction.invoke _ _ :: t => (d == 0) && lockFreeInvokes d t
  | d, _ :: t => lockFreeInvokes d t

/-- The removal of `i` from the registry. -/
def isRemoveFor (i : Nat) : SAction → Bool
  | SAction.removeConn j => j == i
  | _ => false

/-- The `Disconnected` callback for `i`. -/
def isInvokeDiscFor (i : Nat) : SAction → Bool
  | SAction.invoke j SResult.disconnected => j == i
  | _ => false

/-- Some later `Disconnected` callback for `i` occurs in the trace. -/
def containsInvokeDisc (i : Nat) (t : List SAction) : Bool :=
  t.any (isInvokeDiscFor i)

/-- Neither the removal of `i` nor the `Disconnected` callback for `i`. -/
def neutralFor (i : Nat) (a : SAction) : Bool :=
  !isRemoveFor i a && !isInvokeDiscFor i a

/-- The first of {removal of `i`, `Disconnected` callback for `i`} to occur
is the removal, and the callback does occur after it. -/
def removeBeforeInvokeDisc (i : Nat) : List SAction → Bool
  | [] => false
  | a :: t =>
    if isRemoveFor i a then containsInvokeDisc i t
    else if isInvokeDiscFor i a then false
    else removeBeforeInvokeDisc i t

/-- The first of {removal of `i`, `Disconnected` callback for `i`} to occur
is the callback, and the removal does occur after it (the order claim C5
states). -/
def invokeThenRemove (i : Nat) : List SAction → Bool
  | [] => false
  | a :: t =>
    if isInvokeDiscFor i a then t.any (isRemoveFor i)
    else if isRemoveFor i a then false
    else invokeThenRemove i t

/-! Embedding of `Lobby::message` and its wrappers (lib.rs lines 154-186). -/

/-- Outcome of a `message` call: the returned `(id, error)` failure list,
the trace of `write_all` calls performed (each carrying the full payload),
and the Connection Registry afterwards. -/
structure MsgOut where
  failed : List (Nat × Nat)
  attempts : List (Nat × List Nat)
  conns : List (Nat × Conn)
deriving DecidableEq, Repr

/-- Embeds `Lobby::message` (lib.rs lines 178-186): iterate the registry,
filter by the predicate on the id, `write_all` the payload on each selected
connection's stream, and collect failures.  The registry map itself is
never mutated (only the streams are written), so every entry - including a
failing one - survives with its key. -/
def message (pred : Nat → Bool) (d : List Nat) : List (Nat × Conn) → MsgOut
  | [] => ⟨[], [], []⟩
  | (i, c) :: rest =>
    let m := message pred d rest
    if pred i then
      match c.writeErr with
      | some e => ⟨(i, e) :: m.failed, (i, d) :: m.attempts, (i, c) :: m.conns⟩
      | none =>
        ⟨m.failed, (i, d) :: m.attempts,
          (i, { c with written := c.written ++ [d] }) :: m.conns⟩
    else ⟨m.failed, m.attempts, (i, c) :: m.conns⟩

/-- Embeds `Lobby::message_all` (lib.rs line 154): `message(|_| true)`. -/
def message_all (d : List Nat) (conns : List (Nat × Conn)) : MsgOut :=
  message (fun _ => true) d conns

/-- Embeds `Lobby::message_client` (line 162): `message(|id| id == client)`. -/
def message_client (client : Nat) (d : List Nat) (conns : List (Nat × Conn)) : MsgOut :=
  message (fun i => i == client) d conns

/-- Embeds `Lobby::message_rest` (line 170): `message(|id| id != client)`. -/
def message_rest (client : Nat) (d : List Nat) (conns : List (Nat × Conn)) : MsgOut :=
  message (fun i => i != client) d conns

/-- Embeds `Lobby::name` (lib.rs lines 225-227): lookup in the Name
Registry (an association list with newest insertion first, matching
`VecMap::insert` overwrite semantics for the lookup). -/
def nameLookup (client : Nat) (names : List (Nat × List Nat)) : Option (List Nat) :=
  List.lookup client names

/-! Small-step interleaving of one Reader Task (its id is 1) with the
application thread calling `scan` repeatedly.  A scan call is not atomic:
its established-channel drain (phase 1) and its registry sweep plus
delivery (phases 2-3) are separated, and Reader Task steps may run between
them, exactly as the threads of the source may interleave.  The connection
is already registered (the accept loop's insert on line 135 completed)
and the accept loop stays alive, so the shared established channel never
closes. -/

/-- Global state of the one-connection system: the Reader Task's remaining
actions, the shared established channel's queue, the connection's data
channel (queue and closed flag), the Name Registry, the Connection
Registry (list of registered ids), and whether the id was pushed back to
the free list. -/
structure Sys where
  readerRest : List RAction
  newQ : List Nat
  dataQ : List DElem
  dataClosed : Bool
  names : List (Nat × List Nat)
  registry : List Nat
  freed : Bool
deriving DecidableEq, Repr

/-- Effect of one Reader Task action on the shared state (the task's id
is 1).  A panic closes the data channel by unwinding, and releases
nothing. -/
def applyR (a : RAction) (s : Sys) : Sys :=
  match a with
  | RAction.regName n => { s with names := (1, n) :: s.names }
  | RAction.sendEst => { s with newQ := s.newQ ++ [1] }
  | RAction.sendData e => { s with dataQ := s.dataQ ++ [e] }
  | RAction.dropDs => { s with dataClosed := true }
  | RAction.panicAct => { s with dataClosed := true }
  | RAction.release => { s with freed := true }

/-- One step of the Reader Task thread: perform its next action. -/
def readerStep (s : Sys) : Sys :=
  match s.readerRest with
  | [] => s
  | a :: rest => { applyR a s with readerRest := rest }

/-- Several Reader Task steps. -/
def steps : Nat → Sys → Sys
  | 0, s => s
  | k + 1, s => steps k (readerStep s)

/-- A callback invocation: the id and the `ScanResult` passed. -/
abbrev CB := Nat × SResult

/-- Phase 1 of a scan call on the live system (lib.rs lines 194-203):
drain the established channel, invoking `Connected` for each pending id. -/
def sysScanP1 (s : Sys) : List CB × Sys :=
  (s.newQ.map (fun i => (i, SResult.connected)), { s with newQ := [] })

/-- Phases 2-3 of a scan call on the live system (lib.rs lines 205-221):
one `try_recv` on the registered connection's channel - the front event if
buffered, `Disconnected` (and removal from the registry) if the channel is
closed and empty, nothing otherwise. -/
def sysScanP2 (s : Sys) : List CB × Sys :=
  if s.registry.contains 1 then
    match s.dataQ with
    | DElem.data b :: rest => ([(1, SResult.data b)], { s with dataQ := rest })
    | DElem.ioErr e :: rest => ([(1, SResult.ioErr e)], { s with dataQ := rest })
    | [] =>
      if s.dataClosed then ([(1, SResult.disconnected)], { s with registry := [] })
      else ([], s)
  else ([], s)

/-- One schedule entry: a Reader Task step, or a whole scan call with `k`
Reader Task steps interleaved between its drain and its sweep. -/
inductive SchedItem where
  | rstep
  | scall (k : Nat)
deriving DecidableEq, Repr

/-- Runs a schedule, returning each scan call's callback sequence (in call
order) and the final state. -/
def runSched : List SchedItem → Sys → List (List CB) × Sys
  | [], s => ([], s)
  | SchedItem.rstep :: sch, s => runSched sch (readerStep s)
  | SchedItem.scall k :: sch, s =>
    let p1 := sysScanP1 s
    let p2 := sysScanP2 (steps k p1.2)
    let r := runSched sch p2.2
    ((p1.1 ++ p2.1) :: r.1, r.2)

/-- Initial state for a Reader Task whose socket yields the script `s`. -/
def initSys (s : List StreamItem) : Sys :=
  ⟨readerActions s, [], [], false, [], [1], false⟩

/-- The callback passes `Connected`. -/
def isConnCB (cb : CB) : Bool :=
  match cb.2 with
  | SResult.connected => true
  | _ => false

/-- No `Connected` callback in the list. -/
def noConnectedCB (l : List CB) : Bool := l.all (fun cb => !isConnCB cb)

/-- Within one scan call's callback sequence, every `Connected` precedes
every `Data`/`IoError`/`Disconnected`. -/
def connectedFirst : List CB → Bool
  | [] => true
  | cb :: t => if isConnCB cb then connectedFirst t else noConnectedCB t

/-- Some scan call delivered a `Connected` callback. -/
def hasConn (calls : List (List CB)) : Bool :=
  calls.any (fun l => l.any isConnCB)

/-- Scanning the flattened callback sequence of all scan calls in order:
no `Data`/`IoError`/`Disconnected` for id 1 occurs strictly before the
first `Connected` for id 1 (the property claim C3 asserts). -/
def noEventBefore1Connected : List CB → Bool
  | [] => true
  | (i, SResult.connected) :: t => if i == 1 then true else noEventBefore1Connected t
  | (i, _) :: t => if i == 1 then false else noEventBefore1Connected t

/-- No name-registration and no established-send in the action list (the
steady-state actions of a Reader Task). -/
def noHsActs : List RAction → Bool
  | [] => true
  | RAction.regName _ :: _ => false
  | RAction.sendEst :: _ => false
  | _ :: t => noHsActs t

/-- Invariant of the one-connection system for a Reader Task whose
handshake succeeds with name `nm`: either the task has not yet registered
the name (nothing pending on the established channel), or it has
registered the name but not yet signalled (still nothing pending), or the
name is readable and only steady-state actions remain. -/
def SInv (nm : List Nat) (s : Sys) : Prop :=
  (∃ tl, s.readerRest = RAction.regName nm :: RAction.sendEst :: tl
      ∧ noHsActs tl = true ∧ s.newQ = [])
  ∨ (∃ tl, s.readerRest = RAction.sendEst :: tl ∧ noHsActs tl = true ∧ s.newQ = []
      ∧ List.lookup 1 s.names = some nm)
  ∨ (noHsActs s.readerRest = true ∧ List.lookup 1 s.names = some nm)

/-! Helper lemmas for the id allocator. -/

theorem drainNew_snd (q : List Nat) (c : Bool) : (drainNew q c).2 = c := by
  induction q with
  | nil => rfl
  | cons i rest ih => simp [drainNew, ih]

theorem drainNew_fst (q : List Nat) (c : Bool) :
    (drainNew q c).1 = q.map (fun i => SAction.invoke i SResult.connected) := by
  induction q with
  | nil => rfl
  | cons i rest ih => simp [drainNew, ih]

theorem phase1_eq (st : ScanState) :
    phase1 st = st.newQ.map (fun i => SAction.invoke i SResult.connected) :=
  drainNew_fst st.newQ st.newClosed

theorem scanPanicked_eq (st : ScanState) : scanPanicked st = st.newClosed :=
  drainNew_snd st.newQ st.newClosed

theorem runAlloc_drain (l : List Nat) : ∀ c : Nat,
    (runAlloc (List.replicate l.length AllocOp.alloc) ⟨c, l⟩).2 = l := by
  induction l with
  | nil => intro c; rfl
  | cons f r ih => intro c; simp [List.replicate_succ, runAlloc, allocate, ih]

theorem fresh_aux : ∀ (ops : List AllocOp) (issued : List Nat) (a : IdAlloc),
    (∀ x ∈ issued, x ≤ a.counter) → (∀ x ∈ a.freeIds, x ∈ issued) →
    wfOps ops issued a = true → freshOk ops issued a = true := by
  intro ops
  induction ops with
  | nil => intro issued a _ _ _; rfl
  | cons op ops ih =>
    intro issued a h1 h2 hwf
    cases op with
    | alloc =>
      obtain ⟨c, fl⟩ := a
      cases fl with
      | nil =>
        simp only [wfOps, allocate] at hwf
        have h1' : ∀ x ∈ issued, x ≤ c := h1
        have hnotmem : c + 1 ∉ issued := by
          intro hm
          have := h1' (c + 1) hm
          omega
        have hrec : freshOk ops (issued ++ [c + 1]) ⟨c + 1, []⟩ = true := by
          apply ih
          · intro x hx
            show x ≤ c + 1
            rcases List.mem_append.mp hx with hx | hx
            · have := h1' x hx; omega
            · simp at hx; omega
          · intro x hx
            exact absurd hx (List.not_mem_nil x)
          · exact hwf
        simp [freshOk, allocate, hnotmem, hrec]
      | cons f r =>
        simp only [wfOps, allocate] at hwf
        have h1' : ∀ x ∈ issued, x ≤ c := h1
        have hf : f ∈ issued := h2 f (List.mem_cons_self f r)
        have hrec : freshOk ops (issued ++ [f]) ⟨c, r⟩ = true := by
          apply ih
          · intro x hx
            show x ≤ c
            rcases List.mem_append.mp hx with hx | hx
            · exact h1' x hx
            · simp at hx
              rw [hx]
              exact h1' f hf
          · intro x hx
            exact List.mem_append.mpr (Or.inl (h2 x (List.mem_cons_of_mem f hx)))
          · exact hwf
        simp [freshOk, allocate, hrec]
    | free i =>
      simp only [wfOps, Bool.and_eq_true] at hwf
      obtain ⟨hc, hwf⟩ := hwf
      have hi : i ∈ issued := List.elem_iff.mp hc
      simp only [freshOk]
      exact ih issued (release a i)
        (by intro x hx; exact h1 x hx)
        (by
          intro x hx
          have hx' : x ∈ a.freeIds ++ [i] := hx
          rcases List.mem_append.mp hx' with hx'' | hx''
          · exact h2 x hx''
          · simp at hx''
            subst hx''
            exact hi)
        hwf

/-- C8: the id allocator pops the front of the FIFO free list when it is
non-empty, otherwise pre-increments its counter and returns the fresh
value; release appends to the back of the free list; a run of consecutive
allocations returns the free list front-to-back (released ids are reused
in release order); and in any well-formed operation sequence (reader tasks
only release ids they were issued) every empty-free-list allocation
returns a never-before-issued id. -/
theorem c8_allocator_fifo_fresh (c f i : Nat) (r l : List Nat) (a : IdAlloc)
    (ops : List AllocOp) (h : wfOps ops [] ⟨0, []⟩ = true) :
    allocate ⟨c, f :: r⟩ = (f, ⟨c, r⟩)
    ∧ allocate ⟨c, []⟩ = (c + 1, ⟨c + 1, []⟩)
    ∧ release a i = ⟨a.counter, a.freeIds ++ [i]⟩
    ∧ (runAlloc (List.replicate l.length AllocOp.alloc) ⟨c, l⟩).2 = l
    ∧ freshOk ops [] ⟨0, []⟩ = true :=
  ⟨rfl, rfl, rfl, runAlloc_drain l c,
    fresh_aux ops [] ⟨0, []⟩ (by intro x hx; simp at hx) (by intro x hx; simp at hx) h⟩

/-- Witness for C8 at concrete inputs, including a run that recycles two
released ids in FIFO order before minting a fresh one. -/
theorem c8_allocator_fifo_fresh_witness :
    wfOps [AllocOp.alloc, AllocOp.alloc, AllocOp.free 1, AllocOp.free 2,
        AllocOp.alloc, AllocOp.alloc, AllocOp.alloc] [] ⟨0, []⟩ = true
    ∧ (allocate ⟨3, 5 :: [6]⟩ = (5, ⟨3, [6]⟩)
      ∧ allocate ⟨3, []⟩ = (3 + 1, ⟨3 + 1, []⟩)
      ∧ release ⟨7, [8]⟩ 9 = ⟨(⟨7, [8]⟩ : IdAlloc).counter, (⟨7, [8]⟩ : IdAlloc).freeIds ++ [9]⟩
      ∧ (runAlloc (List.replicate [4, 2].length AllocOp.alloc) ⟨3, [4, 2]⟩).2 = [4, 2]
      ∧ freshOk [AllocOp.alloc, AllocOp.alloc, AllocOp.free 1, AllocOp.free 2,
          AllocOp.alloc, AllocOp.alloc, AllocOp.alloc] [] ⟨0, []⟩ = true) :=
  ⟨by decide,
    c8_allocator_fifo_fresh 3 5 9 [6] [4, 2] ⟨7, [8]⟩
      [AllocOp.alloc, AllocOp.alloc, AllocOp.free 1, AllocOp.free 2,
        AllocOp.alloc, AllocOp.alloc, AllocOp.alloc] (by decide)⟩

/-! Helper lemmas for `message`. -/

theorem message_attempts (pred : Nat → Bool) (d : List Nat) :
    ∀ conns : List (Nat × Conn),
      (message pred d conns).attempts
        = (conns.filter (fun p => pred p.1)).map (fun p => (p.1, d)) := by
  intro conns
  induction conns with
  | nil => rfl
  | cons p rest ih =>
    obtain ⟨i, c⟩ := p
    by_cases hp : pred i
    · cases hwe : c.writeErr with
      | none => simp [message, hp, hwe, List.filter_cons, ih]
      | some e => simp [message, hp, hwe, List.filter_cons, ih]
    · simp [message, hp, List.filter_cons, ih]

theorem message_failed (pred : Nat → Bool) (d : List Nat) :
    ∀ conns : List (Nat × Conn),
      (message pred d conns).failed
        = conns.filterMap
            (fun p => if pred p.1 then p.2.writeErr.map (fun e => (p.1, e)) else none) := by
  intro conns
  induction conns with
  | nil => rfl
  | cons p rest ih =>
    obtain ⟨i, c⟩ := p
    by_cases hp : pred i
    · cases hwe : c.writeErr with
      | none => simp [message, hp, hwe, List.filterMap_cons, ih]
      | some e => simp [message, hp, hwe, List.filterMap_cons, ih]
    · simp [message, hp, List.filterMap_cons, ih]

theorem message_conns (pred : Nat → Bool) (d : List Nat) :
    ∀ conns : List (Nat × Conn),
      (message pred d conns).conns
        = conns.map (fun p =>
            if pred p.1 && p.2.writeErr.isNone
            then (p.1, { p.2 with written := p.2.written ++ [d] })
            else p) := by
  intro conns
  induction conns with
  | nil => rfl
  | cons p rest ih =>
    obtain ⟨i, c⟩ := p
    by_cases hp : pred i
    · cases hwe : c.writeErr with
      | none => simp [message, hp, hwe, ih]
      | some e => simp [message, hp, hwe, ih]
    · simp [message, hp, ih]

theorem message_ids (pred : Nat → Bool) (d : List Nat) (conns : List (Nat × Conn)) :
    (message pred d conns).conns.map Prod.fst = conns.map Prod.fst := by
  induction conns with
  | nil => rfl
  | cons p rest ih =>
    obtain ⟨i, c⟩ := p
    by_cases hp : pred i
    · cases hwe : c.writeErr with
      | none => simp [message, hp, hwe, ih]
      | some e => simp [message, hp, hwe, ih]
    · simp [message, hp, ih]

/-- C6: `message(predicate, bytes)` performs one `write_all` of the payload
on exactly the registered connections whose id satisfies the predicate (in
registry order), returns exactly the `(id, error)` pairs of the selected
connections whose write failed, and leaves the Connection Registry's
entries in place - a failing connection keeps its entry unchanged, and the
registered ids are untouched. -/
theorem c6_message_selective_failures (pred : Nat → Bool) (d : List Nat)
    (conns : List (Nat × Conn)) :
    (message pred d conns).attempts
      = (conns.filter (fun p => pred p.1)).map (fun p => (p.1, d))
    ∧ (message pred d conns).failed
      = conns.filterMap
          (fun p => if pred p.1 then p.2.writeErr.map (fun e => (p.1, e)) else none)
    ∧ (message pred d conns).conns
      = conns.map (fun p =>
          if pred p.1 && p.2.writeErr.isNone
          then (p.1, { p.2 with written := p.2.written ++ [d] })
          else p)
    ∧ (message pred d conns).conns.map Prod.fst = conns.map Prod.fst :=
  ⟨message_attempts pred d conns, message_failed pred d conns,
    message_conns pred d conns, message_ids pred d conns⟩

/-- C7: the three convenience wrappers are `message` at the always-true
predicate, at equality with the client id, and at inequality with the
client id; consequently `message_rest` writes the payload once to every
registered connection other than the excluded id and never to the excluded
id itself. -/
theorem c7_message_wrappers (client : Nat) (d : List Nat)
    (conns : List (Nat × Conn)) :
    message_all d conns = message (fun _ => true) d conns
    ∧ message_client client d conns = message (fun i => i == client) d conns
    ∧ message_rest client d conns = message (fun i => i != client) d conns
    ∧ (message_rest client d conns).attempts
      = (conns.filter (fun p => p.1 != client)).map (fun p => (p.1, d))
    ∧ ((message_rest client d conns).attempts.all (fun a => a.1 != client)) = true := by
  refine ⟨rfl, rfl, rfl, message_attempts _ d conns, ?_⟩
  rw [message_rest, message_attempts]
  rw [List.all_eq_true]
  intro a ha
  rcases List.mem_map.mp ha with ⟨p, hp, rfl⟩
  exact (List.mem_filter.mp hp).2

/-! Helper lemmas for the scan trace. -/

theorem sweep_no_conn : ∀ (conns : List (Nat × Conn)) (pr : Nat × SResult),
    pr ∈ (sweep conns).1 → pr.2 ≠ SResult.connected := by
  intro conns
  induction conns with
  | nil => intro pr h; simp [sweep] at h
  | cons p rest ih =>
    obtain ⟨i, c⟩ := p
    intro pr hm
    rcases hr : tryRecvC c with ⟨r, c2⟩
    cases r with
    | item e =>
      cases e with
      | data b =>
        simp only [sweep, hr] at hm
        rcases List.mem_cons.mp hm with h | h
        · rw [h]; simp
        · exact ih pr h
      | ioErr e =>
        simp only [sweep, hr] at hm
        rcases List.mem_cons.mp hm with h | h
        · rw [h]; simp
        · exact ih pr h
    | empty =>
      simp only [sweep, hr] at hm
      exact ih pr hm
    | closedR =>
      simp only [sweep, hr] at hm
      rcases List.mem_cons.mp hm with h | h
      · rw [h]; simp
      · exact ih pr h

theorem sweep_ids_sublist : ∀ conns : List (Nat × Conn),
    List.Sublist ((sweep conns).1.map Prod.fst) (conns.map Prod.fst) := by
  intro conns
  induction conns with
  | nil => simp [sweep]
  | cons p rest ih =>
    obtain ⟨i, c⟩ := p
    rcases hr : tryRecvC c with ⟨r, c2⟩
    cases r with
    | item e =>
      cases e with
      | data b => simpa [sweep, hr] using List.Sublist.cons₂ i ih
      | ioErr e => simpa [sweep, hr] using List.Sublist.cons₂ i ih
    | empty => simpa [sweep, hr] using List.Sublist.cons i ih
    | closedR => simpa [sweep, hr] using List.Sublist.cons₂ i ih

theorem sweep_empty_not_mem : ∀ (conns : List (Nat × Conn)) (i : Nat) (c : Conn),
    (conns.map Prod.fst).Nodup → (i, c) ∈ conns → (tryRecvC c).1 = RecvRes.empty →
    i ∉ (sweep conns).1.map Prod.fst := by
  intro conns
  induction conns with
  | nil => intro i c _ hm; simp at hm
  | cons p rest ih =>
    obtain ⟨j, cj⟩ := p
    intro i c hnd hm hrc
    have hnd' : (rest.map Prod.fst).Nodup := (List.nodup_cons.mp hnd).2
    have hjnot : j ∉ rest.map Prod.fst := (List.nodup_cons.mp hnd).1
    rcases List.mem_cons.mp hm with h | h
    · have hij : i = j := congrArg Prod.fst h
      have hcj : c = cj := congrArg Prod.snd h
      subst hij
      have hrc' : (tryRecvC cj).1 = RecvRes.empty := by rw [← hcj]; exact hrc
      rcases hr : tryRecvC cj with ⟨r, c2⟩
      rw [hr] at hrc'
      have hre : r = RecvRes.empty := hrc'
      subst hre
      intro habs
      simp only [sweep, hr] at habs
      exact hjnot (List.Sublist.mem habs (sweep_ids_sublist rest))
    · have hij : i ≠ j := by
        intro he
        apply hjnot
        rw [← he]
        exact List.mem_map.mpr ⟨(i, c), h, rfl⟩
      rcases hr : tryRecvC cj with ⟨r, c2⟩
      cases r with
      | item e =>
        cases e with
        | data b =>
          intro habs
          simp only [sweep, hr, List.map_cons] at habs
          rcases List.mem_cons.mp habs with hh | hh
          · exact hij hh
          · exact ih i c hnd' h hrc hh
        | ioErr e =>
          intro habs
          simp only [sweep, hr, List.map_cons] at habs
          rcases List.mem_cons.mp habs with hh | hh
          · exact hij hh
          · exact ih i c hnd' h hrc hh
      | empty =>
        intro habs
        simp only [sweep, hr] at habs
        exact ih i c hnd' h hrc habs
      | closedR =>
        intro habs
        simp only [sweep, hr, List.map_cons] at habs
        rcases List.mem_cons.mp habs with hh | hh
        · exact hij hh
        · exact ih i c hnd' h hrc hh

theorem deliver_eventPairs : ∀ res : List (Nat × SResult),
    (∀ pr ∈ res, pr.2 ≠ SResult.connected) →
    eventPairsOf (deliver res) = res := by
  intro res
  induction res with
  | nil => intro _; rfl
  | cons p rest ih =>
    obtain ⟨j, r⟩ := p
    intro h
    have hrest := fun pr hm => h pr (List.mem_cons_of_mem _ hm)
    cases r with
    | connected => exact absurd rfl (h (j, SResult.connected) (List.mem_cons_self _ _))
    | data b => simp [deliver, eventPairsOf, ih hrest]
    | ioErr e => simp [deliver, eventPairsOf, ih hrest]
    | disconnected => simp [deliver, eventPairsOf, ih hrest]

theorem deliver_noRecv : ∀ res : List (Nat × SResult),
    noRecvActs (deliver res) = true := by
  intro res
  induction res with
  | nil => rfl
  | cons p rest ih =>
    obtain ⟨j, r⟩ := p
    cases r <;> simp [deliver, noRecvActs, ih]

theorem deliver_noConnInvoke : ∀ res : List (Nat × SResult),
    (∀ pr ∈ res, pr.2 ≠ SResult.connected) →
    noConnInvoke (deliver res) = true := by
  intro res
  induction res with
  | nil => intro _; rfl
  | cons p rest ih =>
    obtain ⟨j, r⟩ := p
    intro h
    have hrest := fun pr hm => h pr (List.mem_cons_of_mem _ hm)
    cases r with
    | connected => exact absurd rfl (h (j, SResult.connected) (List.mem_cons_self _ _))
    | data b => simp [deliver, noConnInvoke, ih hrest]
    | ioErr e => simp [deliver, noConnInvoke, ih hrest]
    | disconnected => simp [deliver, noConnInvoke, ih hrest]

theorem deliver_lockFree : ∀ res : List (Nat × SResult),
    lockFreeInvokes 0 (deliver res) = true := by
  intro res
  induction res with
  | nil => rfl
  | cons p rest ih =>
    obtain ⟨j, r⟩ := p
    cases r <;> simp [deliver, lockFreeInvokes] <;> simpa using ih

theorem deliver_rbid : ∀ (res : List (Nat × SResult)) (i : Nat),
    (i, SResult.disconnected) ∈ res →
    removeBeforeInvokeDisc i (deliver res) = true := by
  intro res
  induction res with
  | nil => intro i h; simp at h
  | cons p rest ih =>
    obtain ⟨j, r⟩ := p
    intro i hm
    cases r with
    | disconnected =>
      by_cases hji : j = i
      · subst hji
        simp [deliver, removeBeforeInvokeDisc, isRemoveFor, isInvokeDiscFor,
          containsInvokeDisc, List.any_cons]
      · have hmem : (i, SResult.disconnected) ∈ rest := by
          rcases List.mem_cons.mp hm with h | h
          · exact absurd (congrArg Prod.fst h).symm hji
          · exact h
        have hji' : (j == i) = false := by simp [hji]
        simp [deliver, removeBeforeInvokeDisc, isRemoveFor, isInvokeDiscFor, hji']
        exact ih i hmem
    | connected =>
      have hmem : (i, SResult.disconnected) ∈ rest := by
        rcases List.mem_cons.mp hm with h | h
        · exact absurd (congrArg Prod.snd h) (by simp)
        · exact h
      simp [deliver, removeBeforeInvokeDisc, isRemoveFor, isInvokeDiscFor]
      exact ih i hmem
    | data b =>
      have hmem : (i, SResult.disconnected) ∈ rest := by
        rcases List.mem_cons.mp hm with h | h
        · exact absurd (congrArg Prod.snd h) (by simp)
        · exact h
      simp [deliver, removeBeforeInvokeDisc, isRemoveFor, isInvokeDiscFor]
      exact ih i hmem
    | ioErr e =>
      have hmem : (i, SResult.disconnected) ∈ rest := by
        rcases List.mem_cons.mp hm with h | h
        · exact absurd (congrArg Prod.snd h) (by simp)
        · exact h
      simp [deliver, removeBeforeInvokeDisc, isRemoveFor, isInvokeDiscFor]
      exact ih i hmem

theorem connIds_append : ∀ xs ys : List SAction,
    connectedIdsOf (xs ++ ys) = connectedIdsOf xs ++ connectedIdsOf ys := by
  intro xs ys
  induction xs with
  | nil => rfl
  | cons a t ih =>
    cases a with
    | invoke i r => cases r <;> simp [connectedIdsOf, ih]
    | recvConn i => simp [connectedIdsOf, ih]
    | lockConns => simp [connectedIdsOf, ih]
    | unlockConns => simp [connectedIdsOf, ih]
    | removeConn i => simp [connectedIdsOf, ih]

theorem recvIds_append : ∀ xs ys : List SAction,
    recvIdsOf (xs ++ ys) = recvIdsOf xs ++ recvIdsOf ys := by
  intro xs ys
  induction xs with
  | nil => rfl
  | cons a t ih =>
    cases a with
    | invoke i r => cases r <;> simp [recvIdsOf, ih]
    | recvConn i => simp [recvIdsOf, ih]
    | lockConns => simp [recvIdsOf, ih]
    | unlockConns => simp [recvIdsOf, ih]
    | removeConn i => simp [recvIdsOf, ih]

theorem evPairs_append : ∀ xs ys : List SAction,
    eventPairsOf (xs ++ ys) = eventPairsOf xs ++ eventPairsOf ys := by
  intro xs ys
  induction xs with
  | nil => rfl
  | cons a t ih =>
    cases a with
    | invoke i r => cases r <;> simp [eventPairsOf, ih]
    | recvConn i => simp [eventPairsOf, ih]
    | lockConns => simp [eventPairsOf, ih]
    | unlockConns => simp [eventPairsOf, ih]
    | removeConn i => simp [eventPairsOf, ih]

theorem connIds_map_invoke : ∀ q : List Nat,
    connectedIdsOf (q.map (fun i => SAction.invoke i SResult.connected)) = q := by
  intro q
  induction q with
  | nil => rfl
  | cons i t ih => simp [connectedIdsOf, ih]

theorem connIds_map_recv : ∀ conns : List (Nat × Conn),
    connectedIdsOf (conns.map (fun p => SAction.recvConn p.1)) = [] := by
  intro conns
  induction conns with
  | nil => rfl
  | cons p t ih => simp [connectedIdsOf, ih]

theorem recvIds_map_invoke : ∀ q : List Nat,
    recvIdsOf (q.map (fun i => SAction.invoke i SResult.connected)) = [] := by
  intro q
  induction q with
  | nil => rfl
  | cons i t ih => simp [recvIdsOf, ih]

theorem recvIds_map_recv : ∀ conns : List (Nat × Conn),
    recvIdsOf (conns.map (fun p => SAction.recvConn p.1)) = conns.map Prod.fst := by
  intro conns
  induction conns with
  | nil => rfl
  | cons p t ih => simp [recvIdsOf, ih]

theorem evPairs_map_invoke : ∀ q : List Nat,
    eventPairsOf (q.map (fun i => SAction.invoke i SResult.connected)) = [] := by
  intro q
  induction q with
  | nil => rfl
  | cons i t ih => simp [eventPairsOf, ih]

theorem evPairs_map_recv : ∀ conns : List (Nat × Conn),
    eventPairsOf (conns.map (fun p => SAction.recvConn p.1)) = [] := by
  intro conns
  induction conns with
  | nil => rfl
  | cons p t ih => simp [eventPairsOf, ih]

theorem connIds_nil_of_noConn : ∀ t : List SAction,
    noConnInvoke t = true → connectedIdsOf t = [] := by
  intro t
  induction t with
  | nil => intro _; rfl
  | cons a t ih =>
    intro h
    cases a with
    | invoke i r =>
      cases r with
      | connected => simp [noConnInvoke] at h
      | data b => simp [noConnInvoke] at h; simp [connectedIdsOf, ih h]
      | ioErr e => simp [noConnInvoke] at h; simp [connectedIdsOf, ih h]
      | disconnected => simp [noConnInvoke] at h; simp [connectedIdsOf, ih h]
    | recvConn i => simp [noConnInvoke] at h; simp [connectedIdsOf, ih h]
    | lockConns => simp [noConnInvoke] at h; simp [connectedIdsOf, ih h]
    | unlockConns => simp [noConnInvoke] at h; simp [connectedIdsOf, ih h]
    | removeConn i => simp [noConnInvoke] at h; simp [connectedIdsOf, ih h]

theorem recvIds_nil_of_noRecv : ∀ t : List SAction,
    noRecvActs t = true → recvIdsOf t = [] := by
  intro t
  induction t with
  | nil => intro _; rfl
  | cons a t ih =>
    intro h
    cases a with
    | invoke i r => simp [noRecvActs] at h; cases r <;> simp [recvIdsOf, ih h]
    | recvConn i => simp [noRecvActs] at h
    | lockConns => simp [noRecvActs] at h; simp [recvIdsOf, ih h]
    | unlockConns => simp [noRecvActs] at h; simp [recvIdsOf, ih h]
    | removeConn i => simp [noRecvActs] at h; simp [recvIdsOf, ih h]

theorem noConn_map_recv : ∀ conns : List (Nat × Conn),
    noConnInvoke (conns.map (fun p => SAction.recvConn p.1)) = true := by
  intro conns
  induction conns with
  | nil => rfl
  | cons p t ih => simp [noConnInvoke, ih]

theorem noRecv_map_invoke : ∀ q : List Nat,
    noRecvActs (q.map (fun i => SAction.invoke i SResult.connected)) = true := by
  intro q
  induction q with
  | nil => rfl
  | cons i t ih => simp [noRecvActs, ih]

theorem noNonConn_map_invoke : ∀ q : List Nat,
    noNonConnInvoke (q.map (fun i => SAction.invoke i SResult.connected)) = true := by
  intro q
  induction q with
  | nil => rfl
  | cons i t ih => simp [noNonConnInvoke, ih]

theorem noNonConn_map_recv : ∀ conns : List (Nat × Conn),
    noNonConnInvoke (conns.map (fun p => SAction.recvConn p.1)) = true := by
  intro conns
  induction conns with
  | nil => rfl
  | cons p t ih => simp [noNonConnInvoke, ih]

theorem cbr_of_noConn : ∀ t : List SAction,
    noConnInvoke t = true → connBeforeRecv t = true := by
  intro t
  induction t with
  | nil => intro _; rfl
  | cons a t ih =>
    intro h
    cases a with
    | invoke i r =>
      cases r with
      | connected => simp [noConnInvoke] at h
      | data b => simp [noConnInvoke] at h; simp [connBeforeRecv, ih h]
      | ioErr e => simp [noConnInvoke] at h; simp [connBeforeRecv, ih h]
      | disconnected => simp [noConnInvoke] at h; simp [connBeforeRecv, ih h]
    | recvConn i => simp [noConnInvoke] at h; simp [connBeforeRecv, h]
    | lockConns => simp [noConnInvoke] at h; simp [connBeforeRecv, ih h]
    | unlockConns => simp [noConnInvoke] at h; simp [connBeforeRecv, ih h]
    | removeConn i => simp [noConnInvoke] at h; simp [connBeforeRecv, ih h]

theorem cbr_skip_append : ∀ xs ys : List SAction,
    noRecvActs xs = true → connBeforeRecv (xs ++ ys) = connBeforeRecv ys := by
  intro xs ys
  induction xs with
  | nil => intro _; rfl
  | cons a t ih =>
    intro h
    cases a with
    | invoke i r => simp [noRecvActs] at h; cases r <;> simp [connBeforeRecv, ih h]
    | recvConn i => simp [noRecvActs] at h
    | lockConns => simp [noRecvActs] at h; simp [connBeforeRecv, ih h]
    | unlockConns => simp [noRecvActs] at h; simp [connBeforeRecv, ih h]
    | removeConn i => simp [noRecvActs] at h; simp [connBeforeRecv, ih h]

theorem noConnInvoke_append : ∀ xs ys : List SAction,
    noConnInvoke (xs ++ ys) = (noConnInvoke xs && noConnInvoke ys) := by
  intro xs ys
  induction xs with
  | nil => simp [noConnInvoke]
  | cons a t ih =>
    cases a with
    | invoke i r => cases r <;> simp [noConnInvoke, ih]
    | recvConn i => simp [noConnInvoke, ih]
    | lockConns => simp [noConnInvoke, ih]
    | unlockConns => simp [noConnInvoke, ih]
    | removeConn i => simp [noConnInvoke, ih]

theorem cbr_recvs : ∀ (conns : List (Nat × Conn)) (t : List SAction),
    noConnInvoke t = true →
    connBeforeRecv (conns.map (fun p => SAction.recvConn p.1) ++ t) = true := by
  intro conns
  induction conns with
  | nil => intro t h; exact cbr_of_noConn t h
  | cons p rest ih =>
    intro t h
    simp only [List.map_cons, List.cons_append, connBeforeRecv, List.append_eq]
    rw [noConnInvoke_append]
    simp [noConn_map_recv, h]

theorem rd_of_noRecv : ∀ t : List SAction,
    noRecvActs t = true → recvsDone t = true := by
  intro t
  induction t with
  | nil => intro _; rfl
  | cons a t ih =>
    intro h
    cases a with
    | invoke i r =>
      simp [noRecvActs] at h
      cases r with
      | connected => simp [recvsDone, ih h]
      | data b => simp [recvsDone, h]
      | ioErr e => simp [recvsDone, h]
      | disconnected => simp [recvsDone, h]
    | recvConn i => simp [noRecvActs] at h
    | lockConns => simp [noRecvActs] at h; simp [recvsDone, ih h]
    | unlockConns => simp [noRecvActs] at h; simp [recvsDone, ih h]
    | removeConn i => simp [noRecvActs] at h; simp [recvsDone, ih h]

theorem rd_parts : ∀ xs ys : List SAction,
    noNonConnInvoke xs = true → noRecvActs ys = true → recvsDone (xs ++ ys) = true := by
  intro xs ys
  induction xs with
  | nil => intro _ h2; exact rd_of_noRecv ys h2
  | cons a t ih =>
    intro h1 h2
    cases a with
    | invoke i r =>
      cases r with
      | connected =>
        simp [noNonConnInvoke] at h1
        simp [recvsDone, ih h1 h2]
      | data b => simp [noNonConnInvoke] at h1
      | ioErr e => simp [noNonConnInvoke] at h1
      | disconnected => simp [noNonConnInvoke] at h1
    | recvConn i => simp [noNonConnInvoke] at h1; simp [recvsDone, ih h1 h2]
    | lockConns => simp [noNonConnInvoke] at h1; simp [recvsDone, ih h1 h2]
    | unlockConns => simp [noNonConnInvoke] at h1; simp [recvsDone, ih h1 h2]
    | removeConn i => simp [noNonConnInvoke] at h1; simp [recvsDone, ih h1 h2]

theorem lockDelta_map_invoke : ∀ q : List Nat,
    lockDelta (q.map (fun i => SAction.invoke i SResult.connected)) = 0 := by
  intro q
  induction q with
  | nil => rfl
  | cons i t ih => simp [lockDelta, ih]

theorem lockDelta_map_recv : ∀ conns : List (Nat × Conn),
    lockDelta (conns.map (fun p => SAction.recvConn p.1)) = 0 := by
  intro conns
  induction conns with
  | nil => rfl
  | cons p t ih => simp [lockDelta, ih]

theorem lfi_append : ∀ (xs ys : List SAction) (d : Int),
    lockFreeInvokes d (xs ++ ys)
      = (lockFreeInvokes d xs && lockFreeInvokes (d + lockDelta xs) ys) := by
  intro xs
  induction xs with
  | nil => intro ys d; simp [lockFreeInvokes, lockDelta]
  | cons a t ih =>
    intro ys d
    cases a with
    | invoke i r =>
      simp only [List.cons_append, lockFreeInvokes, lockDelta, List.append_eq]
      rw [ih ys d, Bool.and_assoc]
    | recvConn i =>
      simp only [List.cons_append, lockFreeInvokes, lockDelta, List.append_eq]
      exact ih ys d
    | lockConns =>
      simp only [List.cons_append, lockFreeInvokes, lockDelta, List.append_eq]
      rw [ih ys (d + 1)]
      have harith : d + 1 + lockDelta t = d + (lockDelta t + 1) := by ring
      rw [harith]
    | unlockConns =>
      simp only [List.cons_append, lockFreeInvokes, lockDelta, List.append_eq]
      rw [ih ys (d - 1)]
      have harith : d - 1 + lockDelta t = d + (lockDelta t - 1) := by ring
      rw [harith]
    | removeConn i =>
      simp only [List.cons_append, lockFreeInvokes, lockDelta, List.append_eq]
      exact ih ys d

theorem lfi_map_invoke : ∀ q : List Nat,
    lockFreeInvokes 0 (q.map (fun i => SAction.invoke i SResult.connected)) = true := by
  intro q
  induction q with
  | nil => rfl
  | cons i t ih => simp [lockFreeInvokes, ih]

theorem lfi_map_recv : ∀ (d : Int) (conns : List (Nat × Conn)),
    lockFreeInvokes d (conns.map (fun p => SAction.recvConn p.1)) = true := by
  intro d conns
  induction conns generalizing d with
  | nil => rfl
  | cons p t ih => simp [lockFreeInvokes, ih]

theorem rbid_neutral_append : ∀ (xs ys : List SAction) (i : Nat),
    xs.all (neutralFor i) = true →
    removeBeforeInvokeDisc i (xs ++ ys) = removeBeforeInvokeDisc i ys := by
  intro xs ys i
  induction xs with
  | nil => intro _; rfl
  | cons a t ih =>
    intro h
    simp only [List.all_cons, Bool.and_eq_true] at h
    obtain ⟨ha, ht⟩ := h
    simp only [neutralFor, Bool.and_eq_true, Bool.not_eq_true'] at ha
    obtain ⟨ha1, ha2⟩ := ha
    simp only [List.cons_append, removeBeforeInvokeDisc, ha1, ha2, Bool.false_eq_true,
      if_false]
    exact ih ht

theorem all_neutral_map_invoke : ∀ (q : List Nat) (i : Nat),
    (q.map (fun j => SAction.invoke j SResult.connected)).all (neutralFor i) = true := by
  intro q i
  induction q with
  | nil => rfl
  | cons j t ih => simp [neutralFor, isRemoveFor, isInvokeDiscFor, ih]

theorem all_neutral_map_recv : ∀ (conns : List (Nat × Conn)) (i : Nat),
    (conns.map (fun p => SAction.recvConn p.1)).all (neutralFor i) = true := by
  intro conns i
  induction conns with
  | nil => rfl
  | cons p t ih => simp [neutralFor, isRemoveFor, isInvokeDiscFor, ih]

/-- Shape of the scan trace when the established channel is healthy:
phase-1 invocations, the `with_capacity` lock/unlock, the locked sweep,
then delivery. -/
theorem scanTrace_split (st : ScanState) (h2 : st.newClosed = false) :
    scanTrace st
      = (st.newQ.map (fun i => SAction.invoke i SResult.connected)
          ++ (SAction.lockConns :: SAction.unlockConns :: SAction.lockConns ::
            (st.conns.map (fun p => SAction.recvConn p.1) ++ [SAction.unlockConns])))
        ++ deliver (sweep st.conns).1 := by
  simp [scanTrace, scanPanicked_eq, h2, phase1_eq]

theorem scanTrace_open (st : ScanState) (h2 : st.newClosed = false) :
    scanTrace st
      = st.newQ.map (fun i => SAction.invoke i SResult.connected)
        ++ (SAction.lockConns :: SAction.unlockConns :: SAction.lockConns ::
          (st.conns.map (fun p => SAction.recvConn p.1)
            ++ (SAction.unlockConns :: deliver (sweep st.conns).1))) := by
  simp [scanTrace, scanPanicked_eq, h2, phase1_eq]

theorem noNonConnInvoke_append : ∀ xs ys : List SAction,
    noNonConnInvoke (xs ++ ys) = (noNonConnInvoke xs && noNonConnInvoke ys) := by
  intro xs ys
  induction xs with
  | nil => simp [noNonConnInvoke]
  | cons a t ih =>
    cases a with
    | invoke i r => cases r <;> simp [noNonConnInvoke, ih]
    | recvConn i => simp [noNonConnInvoke, ih]
    | lockConns => simp [noNonConnInvoke, ih]
    | unlockConns => simp [noNonConnInvoke, ih]
    | removeConn i => simp [noNonConnInvoke, ih]

theorem reader_keeps_registry : ∀ sys : Sys, (readerStep sys).registry = sys.registry := by
  intro sys
  cases hr : sys.readerRest with
  | nil => simp [readerStep, hr]
  | cons a rest => cases a <;> simp [readerStep, hr, applyR]

/-- C4: every scan call first drains all pending established events in
arrival order, invoking `Connected` for each, before any per-connection
channel is examined; then every registered id receives exactly one
non-blocking receive attempt (once each, in registry order), at most one
`Data`/`IoError`/`Disconnected` callback fires per id per call, and an id
whose channel has nothing ready produces no callback. -/
theorem c4_scan_drain_then_sweep (st : ScanState)
    (h1 : (st.conns.map Prod.fst).Nodup) (h2 : st.newClosed = false) :
    connectedIdsOf (scanTrace st) = st.newQ
    ∧ connBeforeRecv (scanTrace st) = true
    ∧ recvIdsOf (scanTrace st) = st.conns.map Prod.fst
    ∧ ((eventPairsOf (scanTrace st)).map Prod.fst).Nodup
    ∧ (st.conns.all fun p =>
        match (tryRecvC p.2).1 with
        | RecvRes.empty => !((eventPairsOf (scanTrace st)).map Prod.fst).contains p.1
        | _ => true) = true := by
  have hres := sweep_no_conn st.conns
  have hev : eventPairsOf (scanTrace st) = (sweep st.conns).1 := by
    rw [scanTrace_split st h2]
    simp [evPairs_append, eventPairsOf, evPairs_map_invoke, evPairs_map_recv,
      deliver_eventPairs _ hres]
  refine ⟨?_, ?_, ?_, ?_, ?_⟩
  · rw [scanTrace_split st h2]
    simp [connIds_append, connectedIdsOf, connIds_map_invoke, connIds_map_recv,
      connIds_nil_of_noConn _ (deliver_noConnInvoke _ hres)]
  · rw [scanTrace_open st h2]
    rw [cbr_skip_append _ _ (noRecv_map_invoke st.newQ)]
    simp only [connBeforeRecv]
    apply cbr_recvs
    simp [noConnInvoke, deliver_noConnInvoke _ hres]
  · rw [scanTrace_split st h2]
    simp [recvIds_append, recvIdsOf, recvIds_map_invoke, recvIds_map_recv,
      recvIds_nil_of_noRecv _ (deliver_noRecv _)]
  · rw [hev]
    exact List.Sublist.nodup (sweep_ids_sublist st.conns) h1
  · rw [hev]
    rw [List.all_eq_true]
    intro p hp
    rcases hrc : (tryRecvC p.2).1 with e | _ | _
    · simp [hrc]
    · have hnm : p.1 ∉ (sweep st.conns).1.map Prod.fst :=
        sweep_empty_not_mem st.conns p.1 p.2 h1 (by simpa using hp) hrc
      cases hb : ((sweep st.conns).1.map Prod.fst).contains p.1 with
      | false => simp [hrc, hb]
      | true => exact absurd (List.elem_iff.mp hb) hnm
    · simp [hrc]

/-- Witness for C4 on a registry with a buffered data event, an idle
connection and a closed connection. -/
theorem c4_scan_drain_then_sweep_witness :
    (((⟨[5, 7], false, [(1, ⟨[DElem.data [1]], false, none, []⟩),
          (2, ⟨[], false, none, []⟩), (3, ⟨[], true, none, []⟩)]⟩ : ScanState).conns.map
        Prod.fst).Nodup
      ∧ (⟨[5, 7], false, [(1, ⟨[DElem.data [1]], false, none, []⟩),
          (2, ⟨[], false, none, []⟩), (3, ⟨[], true, none, []⟩)]⟩ : ScanState).newClosed
          = false)
    ∧ (connectedIdsOf (scanTrace ⟨[5, 7], false,
          [(1, ⟨[DElem.data [1]], false, none, []⟩), (2, ⟨[], false, none, []⟩),
            (3, ⟨[], true, none, []⟩)]⟩)
        = (⟨[5, 7], false, [(1, ⟨[DElem.data [1]], false, none, []⟩),
            (2, ⟨[], false, none, []⟩), (3, ⟨[], true, none, []⟩)]⟩ : ScanState).newQ
      ∧ connBeforeRecv (scanTrace ⟨[5, 7], false,
          [(1, ⟨[DElem.data [1]], false, none, []⟩), (2, ⟨[], false, none, []⟩),
            (3, ⟨[], true, none, []⟩)]⟩) = true
      ∧ recvIdsOf (scanTrace ⟨[5, 7], false,
          [(1, ⟨[DElem.data [1]], false, none, []⟩), (2, ⟨[], false, none, []⟩),
            (3, ⟨[], true, none, []⟩)]⟩)
        = ((⟨[5, 7], false, [(1, ⟨[DElem.data [1]], false, none, []⟩),
            (2, ⟨[], false, none, []⟩),
            (3, ⟨[], true, none, []⟩)]⟩ : ScanState)).conns.map Prod.fst
      ∧ ((eventPairsOf (scanTrace ⟨[5, 7], false,
          [(1, ⟨[DElem.data [1]], false, none, []⟩), (2, ⟨[], false, none, []⟩),
            (3, ⟨[], true, none, []⟩)]⟩)).map Prod.fst).Nodup
      ∧ ((⟨[5, 7], false, [(1, ⟨[DElem.data [1]], false, none, []⟩),
            (2, ⟨[], false, none, []⟩),
            (3, ⟨[], true, none, []⟩)]⟩ : ScanState).conns.all fun p =>
          match (tryRecvC p.2).1 with
          | RecvRes.empty =>
            !((eventPairsOf (scanTrace ⟨[5, 7], false,
                [(1, ⟨[DElem.data [1]], false, none, []⟩), (2, ⟨[], false, none, []⟩),
                  (3, ⟨[], true, none, []⟩)]⟩)).map Prod.fst).contains p.1
          | _ => true) = true) :=
  ⟨⟨by decide, rfl⟩, c4_scan_drain_then_sweep _ (by decide) rfl⟩

/-- Counterexample to C5 as stated: on a registry holding one connection
whose channel is closed and empty, the scan trace performs the registry
removal strictly before the `Disconnected` callback, not after it - the
callback-then-remove order the claim asserts does not occur, though both
actions do. -/
theorem c5_disconnect_remove_cex :
    invokeThenRemove 1 (scanTrace ⟨[], false, [(1, ⟨[], true, none, []⟩)]⟩) = false
    ∧ (scanTrace ⟨[], false, [(1, ⟨[], true, none, []⟩)]⟩).any (isRemoveFor 1) = true
    ∧ containsInvokeDisc 1 (scanTrace ⟨[], false, [(1, ⟨[], true, none, []⟩)]⟩) = true := by
  decide

/-- C5 (amended): when scan finds a connection's channel closed with
nothing buffered, it removes the id from the Connection Registry and then
invokes `callback(id, Disconnected)` - removal first, callback second; and
removal from the Connection Registry is never performed by a Reader Task
step, only by scan. -/
theorem c5_remove_then_callback (st : ScanState) (i : Nat) (sys : Sys)
    (h2 : st.newClosed = false) (hd : (i, SResult.disconnected) ∈ scanResults st) :
    removeBeforeInvokeDisc i (scanTrace st) = true
    ∧ (readerStep sys).registry = sys.registry := by
  constructor
  · have hall : ((st.newQ.map (fun j => SAction.invoke j SResult.connected)
        ++ (SAction.lockConns :: SAction.unlockConns :: SAction.lockConns ::
          (st.conns.map (fun p => SAction.recvConn p.1)
            ++ [SAction.unlockConns])))).all (neutralFor i) = true := by
      simp [List.all_append, List.all_cons, neutralFor, isRemoveFor, isInvokeDiscFor,
        all_neutral_map_invoke, all_neutral_map_recv]
    rw [scanTrace_split st h2, rbid_neutral_append _ _ _ hall]
    exact deliver_rbid _ i hd
  · exact reader_keeps_registry sys

/-- Witness for C5 (amended) at the closed-empty-channel state. -/
theorem c5_remove_then_callback_witness :
    ((⟨[], false, [(1, ⟨[], true, none, []⟩)]⟩ : ScanState).newClosed = false
      ∧ (1, SResult.disconnected) ∈ scanResults ⟨[], false, [(1, ⟨[], true, none, []⟩)]⟩)
    ∧ (removeBeforeInvokeDisc 1 (scanTrace ⟨[], false, [(1, ⟨[], true, none, []⟩)]⟩) = true
      ∧ (readerStep ⟨[], [], [], false, [], [1], false⟩).registry
        = (⟨[], [], [], false, [], [1], false⟩ : Sys).registry) :=
  ⟨⟨rfl, by decide⟩,
    c5_remove_then_callback ⟨[], false, [(1, ⟨[], true, none, []⟩)]⟩ 1
      ⟨[], [], [], false, [], [1], false⟩ rfl (by decide)⟩

/-- C9: if scan finds the shared connection-established channel closed, the
first-phase loop ends in its `panic!` arm - the call dies right after the
drain, performing no sweep and returning no recoverable error. -/
theorem c9_closed_channel_panics (st : ScanState) (h : st.newClosed = true) :
    scanPanicked st = true ∧ scanTrace st = phase1 st := by
  constructor
  · rw [scanPanicked_eq]
    exact h
  · simp [scanTrace, scanPanicked_eq, h]

/-- Witness for C9 at a closed established channel with one pending id. -/
theorem c9_closed_channel_panics_witness :
    (⟨[4], true, []⟩ : ScanState).newClosed = true
    ∧ (scanPanicked ⟨[4], true, []⟩ = true
      ∧ scanTrace ⟨[4], true, []⟩ = phase1 ⟨[4], true, []⟩) :=
  ⟨rfl, c9_closed_channel_panics ⟨[4], true, []⟩ rfl⟩

/-- C10: in every scan call, all per-connection receive attempts complete
(and their results are buffered in the `results` vector) before the first
`Data`/`IoError`/`Disconnected` callback fires, and every callback runs
with the Connection Registry lock free - so a callback may itself call
`message`, `message_rest` or `name` (scan never touches the names lock at
all) without self-deadlock. -/
theorem c10_scan_snapshot_lock_free (st : ScanState) :
    recvsDone (scanTrace st) = true ∧ lockFreeInvokes 0 (scanTrace st) = true := by
  cases hcl : st.newClosed with
  | true =>
    have htr : scanTrace st = st.newQ.map (fun i => SAction.invoke i SResult.connected) := by
      simp [scanTrace, scanPanicked_eq, hcl, phase1_eq]
    constructor
    · rw [htr]
      exact rd_of_noRecv _ (noRecv_map_invoke st.newQ)
    · rw [htr]
      exact lfi_map_invoke st.newQ
  | false =>
    constructor
    · rw [scanTrace_split st hcl]
      apply rd_parts
      · simp [noNonConnInvoke_append, noNonConnInvoke, noNonConn_map_invoke,
          noNonConn_map_recv]
      · exact deliver_noRecv _
    · rw [scanTrace_open st hcl]
      rw [lfi_append]
      have h1 : lockFreeInvokes 0
          (st.newQ.map (fun i => SAction.invoke i SResult.connected)) = true :=
        lfi_map_invoke st.newQ
      rw [h1, lockDelta_map_invoke]
      simp only [Bool.true_and, Int.zero_add, lockFreeInvokes]
      rw [lfi_append, lfi_map_recv, lockDelta_map_recv]
      simp only [Bool.true_and, Int.add_zero, lockFreeInvokes]
      have : (0 : Int) + 1 - 1 + 1 - 1 = 0 := by ring
      simp [lockFreeInvokes, deliver_lockFree]

/-- Counterexample to C1 as stated: a client that sends the single byte
0xFF followed by the 0x00 delimiter fails the handshake (0xFF is not valid
UTF-8), yet the Reader Task does not release the id - the
`String::from_utf8(..).unwrap()` on line 106 panics instead, so the id is
lost. -/
theorem c1_invalid_utf8_no_release_cex :
    handshakeFailed [StreamItem.chunk [255, 0]] = true
    ∧ (readerTask [StreamItem.chunk [255, 0]]).released = false
    ∧ (readerTask [StreamItem.chunk [255, 0]]).panicked = true := by
  decide

/-- C1 (amended): on any handshake failure no event of any kind is
produced for the id (no established signal, no data-channel event, no
name); but the id is released back to the free list exactly when the
failure is an I/O error from `read_until` - when the buffered bytes are
invalid UTF-8 the task panics instead and the id is never released. -/
theorem c1_handshake_failure_paths (s : List StreamItem)
    (h : handshakeFailed s = true) :
    (readerTask s).establishedSent = false
    ∧ (readerTask s).nameRegistered = none
    ∧ (readerTask s).events = []
    ∧ (readerTask s).released = readUntilErr s
    ∧ (readerTask s).panicked = !readUntilErr s := by
  cases hru : readUntil0 s [] with
  | ioError => simp [readerTask, readUntilErr, hru]
  | ok buf rest =>
    have hv : validUtf8 buf.dropLast = false := by
      simpa [handshakeFailed, hru] using h
    simp [readerTask, readUntilErr, hru, hv]

/-- Witness for C1 (amended) at an immediate read error. -/
theorem c1_handshake_failure_paths_witness :
    handshakeFailed [StreamItem.ioErr 5] = true
    ∧ ((readerTask [StreamItem.ioErr 5]).establishedSent = false
      ∧ (readerTask [StreamItem.ioErr 5]).nameRegistered = none
      ∧ (readerTask [StreamItem.ioErr 5]).events = []
      ∧ (readerTask [StreamItem.ioErr 5]).released = readUntilErr [StreamItem.ioErr 5]
      ∧ (readerTask [StreamItem.ioErr 5]).panicked = !readUntilErr [StreamItem.ioErr 5]) :=
  ⟨by decide, c1_handshake_failure_paths _ (by decide)⟩

/-- C2: evaluation of the code at the failing input.  A client that sends
bytes `a b` and closes without ever sending the 0x00 delimiter is treated
as a successful handshake: `read_until` returns `Ok` at stream end, the
unconditional `pop` removes the data byte `b` (not a delimiter), the name
`"a"` is registered, the established event is sent, and scan delivers
`Connected` followed by `Disconnected` - the claim says `Connected` must
never be delivered for such a client. -/
theorem c2_eof_before_delimiter_bug :
    (runSched [SchedItem.scall 2, SchedItem.scall 2]
        (initSys [StreamItem.chunk [97, 98]])).1
      = [[], [(1, SResult.connected), (1, SResult.disconnected)]]
    ∧ (readerTask [StreamItem.chunk [97, 98]]).establishedSent = true
    ∧ (readerTask [StreamItem.chunk [97, 98]]).nameRegistered = some [97]
    ∧ (readerTask [StreamItem.chunk [97, 98]]).released = true := by
  decide

/-! Characterization of the handshake for claim C3. -/

theorem sad_some : ∀ (b pre post : List Nat),
    splitAtDelim b = some (pre, post) → b = pre ++ 0 :: post ∧ ∀ x ∈ pre, x ≠ 0 := by
  intro b
  induction b with
  | nil => intro pre post h; simp [splitAtDelim] at h
  | cons x xs ih =>
    intro pre post h
    by_cases hx : x = 0
    · subst hx
      simp [splitAtDelim] at h
      obtain ⟨h1, h2⟩ := h
      subst h1
      subst h2
      exact ⟨rfl, by intro y hy; simp at hy⟩
    · have h' : (splitAtDelim xs).map (fun pq => (x :: pq.1, pq.2)) = some (pre, post) := by
        simpa [splitAtDelim, hx] using h
      obtain ⟨⟨p2, q2⟩, hsp, hf⟩ := Option.map_eq_some'.mp h'
      cases hf
      obtain ⟨hb, hnz⟩ := ih p2 q2 hsp
      constructor
      · simp [hb]
      · intro y hy
        rcases List.mem_cons.mp hy with hy | hy
        · rw [hy]; exact hx
        · exact hnz y hy

theorem sad_none : ∀ b : List Nat,
    splitAtDelim b = none → ∀ x ∈ b, x ≠ 0 := by
  intro b
  induction b with
  | nil => intro _ x hx; simp at hx
  | cons y ys ih =>
    intro h x hx
    by_cases hy : y = 0
    · subst hy; simp [splitAtDelim] at h
    · have h' : splitAtDelim ys = none := by
        have h2 : (splitAtDelim ys).map (fun pq => (y :: pq.1, pq.2)) = none := by
          simpa [splitAtDelim, hy] using h
        exact Option.map_eq_none'.mp h2
      rcases List.mem_cons.mp hx with hx | hx
      · rw [hx]; exact hy
      · exact ih h' x hx

theorem takeWhile_pre : ∀ (pre l : List Nat), (∀ x ∈ pre, x ≠ 0) →
    (pre ++ 0 :: l).takeWhile (fun b => b != 0) = pre := by
  intro pre
  induction pre with
  | nil => intro l _; simp [List.takeWhile]
  | cons x xs ih =>
    intro l h
    have hx : x ≠ 0 := h x (List.mem_cons_self _ _)
    have hx' : (x != 0) = true := by simpa using hx
    have hxs := fun y hy => h y (List.mem_cons_of_mem _ hy)
    simp only [List.cons_append, List.takeWhile_cons, hx']
    simp [ih l hxs]

theorem takeWhile_nozero : ∀ (b l : List Nat), (∀ x ∈ b, x ≠ 0) →
    (b ++ l).takeWhile (fun x => x != 0) = b ++ l.takeWhile (fun x => x != 0) := by
  intro b
  induction b with
  | nil => intro l _; rfl
  | cons x xs ih =>
    intro l h
    have hx : x ≠ 0 := h x (List.mem_cons_self _ _)
    have hx' : (x != 0) = true := by simpa using hx
    have hxs := fun y hy => h y (List.mem_cons_of_mem _ hy)
    simp only [List.cons_append, List.takeWhile_cons, hx']
    simp [ih l hxs]

theorem ru_char : ∀ (s : List StreamItem) (acc buf : List Nat) (rest : List StreamItem),
    (∀ x ∈ acc, x ≠ 0) → readUntil0 s acc = RUResult.ok buf rest →
    buf.getLast? = some 0 →
    buf = acc ++ (flattenChunks s).takeWhile (fun b => b != 0) ++ [0] := by
  intro s
  induction s with
  | nil =>
    intro acc buf rest hacc hru hlast
    simp only [readUntil0] at hru
    injection hru with h1 h2
    subst h1
    exact absurd rfl (hacc 0 (List.mem_of_mem_getLast? hlast))
  | cons it s' ih =>
    intro acc buf rest hacc hru hlast
    cases it with
    | ioErr e => simp [readUntil0] at hru
    | chunk b =>
      cases hsd : splitAtDelim b with
      | some pq =>
        obtain ⟨pre, post⟩ := pq
        obtain ⟨hb, hnz⟩ := sad_some b pre post hsd
        simp only [readUntil0, hsd] at hru
        injection hru with h1 h2
        subst h1
        rw [show flattenChunks (StreamItem.chunk b :: s') = b ++ flattenChunks s' from rfl,
          hb, List.append_assoc pre (0 :: post) (flattenChunks s'), List.cons_append,
          takeWhile_pre pre (post ++ flattenChunks s') hnz]
      | none =>
        have hnz := sad_none b hsd
        by_cases hbe : b.isEmpty
        · have hbnil : b = [] := List.isEmpty_iff.mp hbe
          subst hbnil
          simp only [readUntil0, hsd] at hru
          rw [if_pos hbe] at hru
          injection hru with h1 h2
          subst h1
          exact absurd rfl (hacc 0 (List.mem_of_mem_getLast? hlast))
        · simp only [readUntil0, hsd, hbe, if_false] at hru
          have hrec := ih (acc ++ b) buf rest
            (by
              intro x hx
              rcases List.mem_append.mp hx with hx | hx
              · exact hacc x hx
              · exact hnz x hx)
            hru hlast
          rw [hrec]
          rw [show flattenChunks (StreamItem.chunk b :: s') = b ++ flattenChunks s' from rfl]
          rw [takeWhile_nozero b (flattenChunks s') hnz]
          simp

theorem noHsActs_append : ∀ xs ys : List RAction,
    noHsActs (xs ++ ys) = (noHsActs xs && noHsActs ys) := by
  intro xs ys
  induction xs with
  | nil => simp [noHsActs]
  | cons a t ih =>
    cases a with
    | regName n => simp [noHsActs]
    | sendEst => simp [noHsActs]
    | sendData e => simp [noHsActs, ih]
    | dropDs => simp [noHsActs, ih]
    | release => simp [noHsActs, ih]
    | panicAct => simp [noHsActs, ih]

theorem noHs_map_sendData : ∀ l : List DElem,
    noHsActs (l.map RAction.sendData) = true := by
  intro l
  induction l with
  | nil => rfl
  | cons e t ih => simp [noHsActs, ih]

theorem noHs_steadyTail (s : List StreamItem) : noHsActs (steadyTail s) = true := by
  unfold steadyTail
  cases readUntil0 s [] with
  | ioError => rfl
  | ok buf rest =>
    rw [noHsActs_append]
    simp [noHs_map_sendData, noHsActs]

theorem handshake_components (s : List StreamItem) (h : handshakeOk s = true) :
    readerActions s
      = RAction.regName (handshakeName s) :: RAction.sendEst :: steadyTail s
    ∧ handshakeName s = (flattenChunks s).takeWhile (fun b => b != 0) := by
  cases hru : readUntil0 s [] with
  | ioError => simp [handshakeOk, hru] at h
  | ok buf rest =>
    simp only [handshakeOk, hru, Bool.and_eq_true] at h
    obtain ⟨hl, hv⟩ := h
    have hlast : buf.getLast? = some 0 := by
      cases hg : buf.getLast? with
      | none => rw [hg] at hl; simp at hl
      | some v =>
        cases v with
        | zero => rfl
        | succ n => rw [hg] at hl; simp at hl
    have hbuf : buf = (flattenChunks s).takeWhile (fun b => b != 0) ++ [0] := by
      have := ru_char s [] buf rest (by intro x hx; simp at hx) hru hlast
      simpa using this
    constructor
    · simp [readerActions, steadyTail, handshakeName, hru, hv]
    · simp only [handshakeName, hru]
      rw [hbuf]
      exact List.dropLast_concat

/-! Invariant preservation in the one-connection interleaving system. -/

theorem sinv_rstep (nm : List Nat) (s : Sys) (h : SInv nm s) :
    SInv nm (readerStep s)
    ∧ (List.lookup 1 s.names = some nm →
        List.lookup 1 (readerStep s).names = some nm) := by
  rcases h with ⟨tl, hr, htl, hq⟩ | ⟨tl, hr, htl, hq, hlk⟩ | ⟨hall, hlk⟩
  · constructor
    · right; left
      refine ⟨tl, ?_, htl, ?_, ?_⟩
      · simp [readerStep, hr, applyR]
      · simpa [readerStep, hr, applyR] using hq
      · simp [readerStep, hr, applyR, List.lookup]
    · intro _
      simp [readerStep, hr, applyR, List.lookup]
  · constructor
    · right; right
      constructor
      · simpa [readerStep, hr, applyR] using htl
      · simpa [readerStep, hr, applyR] using hlk
    · intro _
      simpa [readerStep, hr, applyR] using hlk
  · cases hrr : s.readerRest with
    | nil =>
      have hid : readerStep s = s := by simp [readerStep, hrr]
      rw [hid]
      exact ⟨Or.inr (Or.inr ⟨hall, hlk⟩), fun hl => hl⟩
    | cons a rest =>
      rw [hrr] at hall
      cases a with
      | regName n => simp [noHsActs] at hall
      | sendEst => simp [noHsActs] at hall
      | sendData e =>
        simp only [noHsActs] at hall
        exact ⟨Or.inr (Or.inr ⟨by simpa [readerStep, hrr, applyR] using hall,
          by simpa [readerStep, hrr, applyR] using hlk⟩),
          fun hl => by simpa [readerStep, hrr, applyR] using hl⟩
      | dropDs =>
        simp only [noHsActs] at hall
        exact ⟨Or.inr (Or.inr ⟨by simpa [readerStep, hrr, applyR] using hall,
          by simpa [readerStep, hrr, applyR] using hlk⟩),
          fun hl => by simpa [readerStep, hrr, applyR] using hl⟩
      | release =>
        simp only [noHsActs] at hall
        exact ⟨Or.inr (Or.inr ⟨by simpa [readerStep, hrr, applyR] using hall,
          by simpa [readerStep, hrr, applyR] using hlk⟩),
          fun hl => by simpa [readerStep, hrr, applyR] using hl⟩
      | panicAct =>
        simp only [noHsActs] at hall
        exact ⟨Or.inr (Or.inr ⟨by simpa [readerStep, hrr, applyR] using hall,
          by simpa [readerStep, hrr, applyR] using hlk⟩),
          fun hl => by simpa [readerStep, hrr, applyR] using hl⟩

theorem sinv_steps (nm : List Nat) : ∀ (k : Nat) (s : Sys), SInv nm s →
    SInv nm (steps k s)
    ∧ (List.lookup 1 s.names = some nm →
        List.lookup 1 (steps k s).names = some nm) := by
  intro k
  induction k with
  | zero => intro s h; exact ⟨h, fun hl => hl⟩
  | succ k ih =>
    intro s h
    obtain ⟨h1, h2⟩ := sinv_rstep nm s h
    obtain ⟨h3, h4⟩ := ih (readerStep s) h1
    exact ⟨by simpa [steps] using h3, fun hl => by simpa [steps] using h4 (h2 hl)⟩

theorem sinv_p1 (nm : List Nat) (s : Sys) (h : SInv nm s) :
    SInv nm (sysScanP1 s).2
    ∧ (List.lookup 1 s.names = some nm →
        List.lookup 1 (sysScanP1 s).2.names = some nm) := by
  constructor
  · rcases h with ⟨tl, hr, htl, hq⟩ | ⟨tl, hr, htl, hq, hlk⟩ | ⟨hall, hlk⟩
    · left
      exact ⟨tl, by simpa [sysScanP1] using hr, htl, by simp [sysScanP1]⟩
    · right; left
      exact ⟨tl, by simpa [sysScanP1] using hr, htl, by simp [sysScanP1],
        by simpa [sysScanP1] using hlk⟩
    · right; right
      exact ⟨by simpa [sysScanP1] using hall, by simpa [sysScanP1] using hlk⟩
  · intro hl
    simpa [sysScanP1] using hl

theorem p2_fields (s : Sys) :
    (sysScanP2 s).2.names = s.names ∧ (sysScanP2 s).2.readerRest = s.readerRest
    ∧ (sysScanP2 s).2.newQ = s.newQ := by
  unfold sysScanP2
  by_cases hreg : 1 ∈ s.registry
  · cases hq : s.dataQ with
    | nil =>
      by_cases hc : s.dataClosed
      · simp [hreg, hq, hc]
      · simp [hreg, hq, hc]
    | cons e rest => cases e <;> simp [hreg, hq]
  · simp [hreg]

theorem sinv_p2 (nm : List Nat) (s : Sys) (h : SInv nm s) :
    SInv nm (sysScanP2 s).2
    ∧ (List.lookup 1 s.names = some nm →
        List.lookup 1 (sysScanP2 s).2.names = some nm) := by
  obtain ⟨hn, hrr, hq⟩ := p2_fields s
  constructor
  · rcases h with ⟨tl, hr, htl, hq'⟩ | ⟨tl, hr, htl, hq', hlk⟩ | ⟨hall, hlk⟩
    · left
      exact ⟨tl, by rw [hrr]; exact hr, htl, by rw [hq]; exact hq'⟩
    · right; left
      exact ⟨tl, by rw [hrr]; exact hr, htl, by rw [hq]; exact hq',
        by rw [hn]; exact hlk⟩
    · right; right
      exact ⟨by rw [hrr]; exact hall, by rw [hn]; exact hlk⟩
  · intro hl
    rw [hn]
    exact hl

theorem p2_noConn (s : Sys) : noConnectedCB (sysScanP2 s).1 = true := by
  unfold sysScanP2
  by_cases hreg : 1 ∈ s.registry
  · cases hq : s.dataQ with
    | nil =>
      by_cases hc : s.dataClosed
      · simp [hreg, hq, hc, noConnectedCB, isConnCB]
      · simp [hreg, hq, hc, noConnectedCB]
    | cons e rest => cases e <;> simp [hreg, hq, noConnectedCB, isConnCB]
  · simp [hreg, noConnectedCB]

theorem noConnCB_any (l : List CB) (h : noConnectedCB l = true) :
    l.any isConnCB = false := by
  induction l with
  | nil => rfl
  | cons cb t ih =>
    simp only [noConnectedCB, List.all_cons, Bool.and_eq_true] at h
    obtain ⟨h1, h2⟩ := h
    have h1' : isConnCB cb = false := by simpa using h1
    have h2' : t.any isConnCB = false := ih h2
    simp [List.any_cons, h1', h2']

theorem cf_of_noConn (l : List CB) (h : noConnectedCB l = true) :
    connectedFirst l = true := by
  induction l with
  | nil => rfl
  | cons cb t ih =>
    simp only [noConnectedCB, List.all_cons, Bool.and_eq_true] at h
    obtain ⟨h1, h2⟩ := h
    have h1' : isConnCB cb = false := by simpa using h1
    simp only [connectedFirst, h1', Bool.false_eq_true, if_false]
    exact h2

theorem cf_append (l1 l2 : List CB) (h1 : l1.all isConnCB = true)
    (h2 : noConnectedCB l2 = true) : connectedFirst (l1 ++ l2) = true := by
  induction l1 with
  | nil => simpa using cf_of_noConn l2 h2
  | cons cb t ih =>
    simp only [List.all_cons, Bool.and_eq_true] at h1
    obtain ⟨ha, ht⟩ := h1
    simp only [List.cons_append, connectedFirst, ha, if_true]
    exact ih ht

theorem map_all_conn (q : List Nat) :
    (q.map (fun i => ((i, SResult.connected) : CB))).all isConnCB = true := by
  induction q with
  | nil => rfl
  | cons i t ih => simp [isConnCB, ih]

theorem run_cf : ∀ (sch : List SchedItem) (s : Sys),
    ((runSched sch s).1.all connectedFirst) = true := by
  intro sch
  induction sch with
  | nil => intro s; rfl
  | cons it sch ih =>
    intro s
    cases it with
    | rstep => simpa [runSched] using ih (readerStep s)
    | scall k =>
      simp only [runSched, List.all_cons, Bool.and_eq_true]
      constructor
      · exact cf_append _ _ (map_all_conn s.newQ)
          (p2_noConn (steps k (sysScanP1 s).2))
      · exact ih _

theorem runSched_append : ∀ (sch1 sch2 : List SchedItem) (s : Sys),
    (runSched (sch1 ++ sch2) s).1
        = (runSched sch1 s).1 ++ (runSched sch2 (runSched sch1 s).2).1
    ∧ (runSched (sch1 ++ sch2) s).2 = (runSched sch2 (runSched sch1 s).2).2 := by
  intro sch1
  induction sch1 with
  | nil => intro sch2 s; exact ⟨rfl, rfl⟩
  | cons it sch ih =>
    intro sch2 s
    cases it with
    | rstep => simpa [runSched] using ih sch2 (readerStep s)
    | scall k =>
      obtain ⟨h1, h2⟩ := ih sch2 (sysScanP2 (steps k (sysScanP1 s).2)).2
      exact ⟨by simp [runSched, h1], by simp [runSched, h2]⟩

theorem run_c3 (nm : List Nat) : ∀ (sch : List SchedItem) (s : Sys), SInv nm s →
    SInv nm (runSched sch s).2
    ∧ (List.lookup 1 s.names = some nm →
        List.lookup 1 (runSched sch s).2.names = some nm)
    ∧ (hasConn (runSched sch s).1 = true →
        List.lookup 1 (runSched sch s).2.names = some nm) := by
  intro sch
  induction sch with
  | nil =>
    intro s h
    refine ⟨h, fun hl => hl, ?_⟩
    intro hc
    simp [runSched, hasConn] at hc
  | cons it sch ih =>
    intro s h
    cases it with
    | rstep =>
      obtain ⟨h1, h2⟩ := sinv_rstep nm s h
      obtain ⟨g1, g2, g3⟩ := ih (readerStep s) h1
      refine ⟨by simpa [runSched] using g1, ?_, by simpa [runSched] using g3⟩
      intro hl
      simpa [runSched] using g2 (h2 hl)
    | scall k =>
      obtain ⟨hp1, hm1⟩ := sinv_p1 nm s h
      obtain ⟨hst, hm2⟩ := sinv_steps nm k (sysScanP1 s).2 hp1
      obtain ⟨hp2, hm3⟩ := sinv_p2 nm (steps k (sysScanP1 s).2) hst
      obtain ⟨g1, g2, g3⟩ := ih (sysScanP2 (steps k (sysScanP1 s).2)).2 hp2
      have hmono : List.lookup 1 s.names = some nm →
          List.lookup 1
            (runSched sch (sysScanP2 (steps k (sysScanP1 s).2)).2).2.names
            = some nm := fun hl => g2 (hm3 (hm2 (hm1 hl)))
      refine ⟨by simpa [runSched] using g1, ?_, ?_⟩
      · intro hl
        simpa [runSched] using hmono hl
      · intro hc
        have hrw : runSched (SchedItem.scall k :: sch) s
            = (((sysScanP1 s).1 ++ (sysScanP2 (steps k (sysScanP1 s).2)).1)
                :: (runSched sch (sysScanP2 (steps k (sysScanP1 s).2)).2).1,
              (runSched sch (sysScanP2 (steps k (sysScanP1 s).2)).2).2) := rfl
        rw [hrw] at hc ⊢
        simp only [hasConn, List.any_cons, List.any_append, Bool.or_eq_true] at hc
        rcases hc with (hc | hc) | hc
        · have hq : s.newQ ≠ [] := by
            intro hq0
            rw [show (sysScanP1 s).1
                = s.newQ.map (fun i => ((i, SResult.connected) : CB)) from rfl,
              hq0] at hc
            simp at hc
          have hlk : List.lookup 1 s.names = some nm := by
            rcases h with ⟨tl, hr, htl, hq'⟩ | ⟨tl, hr, htl, hq', hlk⟩ | ⟨hall, hlk⟩
            · exact absurd hq' hq
            · exact absurd hq' hq
            · exact hlk
          exact hmono hlk
        · have hfalse := noConnCB_any _ (p2_noConn (steps k (sysScanP1 s).2))
          rw [hfalse] at hc
          cases hc
        · exact g3 hc

theorem init_sinv (s : List StreamItem) (h : handshakeOk s = true) :
    SInv (handshakeName s) (initSys s) := by
  left
  refine ⟨steadyTail s, ?_, noHs_steadyTail s, rfl⟩
  show readerActions s
    = RAction.regName (handshakeName s) :: RAction.sendEst :: steadyTail s
  exact (handshake_components s h).1

/-- Counterexample to C3 as stated: the client completes the handshake
(`"a" ++ 0x00`) and closes; if the whole Reader Task runs between a scan
call's established-channel drain and its registry sweep, that scan call
delivers `(1, Disconnected)` while the Connected event is still queued,
and the next call delivers `(1, Connected)` - so scan emits Disconnected
for the id strictly before the Connected instant. -/
theorem c3_event_before_connected_cex :
    handshakeOk [StreamItem.chunk [97, 0]] = true
    ∧ noEventBefore1Connected
        ((runSched [SchedItem.scall 4, SchedItem.scall 0]
          (initSys [StreamItem.chunk [97, 0]])).1.flatten) = false
    ∧ (runSched [SchedItem.scall 4, SchedItem.scall 0]
        (initSys [StreamItem.chunk [97, 0]])).1
      = [[(1, SResult.disconnected)], [(1, SResult.connected)]] := by
  decide

/-- C3 (amended): for an id whose handshake completes, the Reader Task
registers the name (the exact bytes the client sent before the first 0x00,
delimiter stripped) strictly before sending the ConnectionEstablishedEvent;
from the moment any scan call has delivered `Connected` for the id - and at
every later moment of the run - `name(id)` returns exactly that string; and
within any single scan call every `Connected` callback precedes every
`Data`/`IoError`/`Disconnected` callback.  (Across distinct scan calls a
`Data`/`IoError`/`Disconnected` may precede the `Connected`, as the
counterexample shows, when the handshake completes between one call's two
phases.) -/
theorem c3_handshake_ordering (s : List StreamItem) (sch1 sch2 : List SchedItem)
    (h : handshakeOk s = true) :
    readerActions s
      = RAction.regName (handshakeName s) :: RAction.sendEst :: steadyTail s
    ∧ handshakeName s = (flattenChunks s).takeWhile (fun b => b != 0)
    ∧ (hasConn (runSched sch1 (initSys s)).1 = true →
        List.lookup 1 (runSched sch1 (initSys s)).2.names = some (handshakeName s)
        ∧ List.lookup 1 (runSched (sch1 ++ sch2) (initSys s)).2.names
          = some (handshakeName s))
    ∧ ((runSched (sch1 ++ sch2) (initSys s)).1.all connectedFirst) = true := by
  obtain ⟨hacts, hname⟩ := handshake_components s h
  have hinit : SInv (handshakeName s) (initSys s) := init_sinv s h
  refine ⟨hacts, hname, ?_, run_cf _ _⟩
  intro hc
  obtain ⟨g1, g2, g3⟩ := run_c3 (handshakeName s) sch1 (initSys s) hinit
  have hmid : List.lookup 1 (runSched sch1 (initSys s)).2.names
      = some (handshakeName s) := g3 hc
  refine ⟨hmid, ?_⟩
  have happ := runSched_append sch1 sch2 (initSys s)
  rw [happ.2]
  exact (run_c3 (handshakeName s) sch2 (runSched sch1 (initSys s)).2 g1).2.1 hmid

/-- Witness for C3 (amended) on the handshake `"a" ++ 0x00` under a
two-call schedule. -/
theorem c3_handshake_ordering_witness :
    handshakeOk [StreamItem.chunk [97, 0]] = true
    ∧ (readerActions [StreamItem.chunk [97, 0]]
        = RAction.regName (handshakeName [StreamItem.chunk [97, 0]])
          :: RAction.sendEst :: steadyTail [StreamItem.chunk [97, 0]]
      ∧ handshakeName [StreamItem.chunk [97, 0]]
        = (flattenChunks [StreamItem.chunk [97, 0]]).takeWhile (fun b => b != 0)
      ∧ (hasConn (runSched [SchedItem.scall 2]
            (initSys [StreamItem.chunk [97, 0]])).1 = true →
          List.lookup 1 (runSched [SchedItem.scall 2]
              (initSys [StreamItem.chunk [97, 0]])).2.names
            = some (handshakeName [StreamItem.chunk [97, 0]])
          ∧ List.lookup 1 (runSched ([SchedItem.scall 2] ++ [SchedItem.scall 2])
              (initSys [StreamItem.chunk [97, 0]])).2.names
            = some (handshakeName [StreamItem.chunk [97, 0]]))
      ∧ ((runSched ([SchedItem.scall 2] ++ [SchedItem.scall 2])
          (initSys [StreamItem.chunk [97, 0]])).1.all connectedFirst) = true) :=
  ⟨by decide,
    c3_handshake_ordering [StreamItem.chunk [97, 0]]
      [SchedItem.scall 2] [SchedItem.scall 2] (by decide)⟩

end Lobby
